import Mathlib

/-!
# ownprox (LIVE555 proxy server front end): `src/main.cpp`

A shallow embedding of `main` and its helpers.

* The argument vector is a list of tokens; the C pair `(argc, argv)` is one list `argv`
  whose head is the current `argv[0]` and whose length is the current `argc`, so
  `++argv; --argc` is `List.tail`.
* A token is a NUL-terminated C string without interior NUL, kept as a Lean `String`.
  Reading `s[i]` at `i = strlen s` gives the terminator.
* The media engine (liveMedia / groupsock) is not part of `main.cpp`.  Its answers are
  the fields of `Engine`; every call into it and every line written to `*env` is
  recorded, in program order, in the trace of the run.
-/

namespace Ownprox

/-! ## C strings and the libc calls used by `main` -/

/-- Character `s[i]` of a C string; the terminating NUL is read at index `strlen s`. -/
def charAt (s : String) (i : Nat) : Char := s.data.getD i '\x00'

/-- Test `strncmp(a, b, n) == 0` on C strings: the first `n` characters agree. -/
def strncmpEq (a b : String) (n : Nat) : Bool := a.data.take n == b.data.take n

/-- White space as skipped by the scanf family (`isspace` in the C locale). -/
def isspace (c : Char) : Bool :=
  c == ' ' || c == '\t' || c == '\n' || c == '\x0b' || c == '\x0c' || c == '\r'

/-- Value of a run of decimal digits, most significant first. -/
def digitsValue (ds : List Char) : Nat := ds.foldl (fun a d => 10 * a + (d.toNat - 48)) 0

/-- Result of `sscanf(s, "%hu", &x)`: `none` when no conversion is made (return value is not
`1`), `some x` when one is.  Leading white space is skipped, one sign is allowed, then the
longest run of decimal digits is converted as by `strtoul`: a value above `2^64 - 1` gives
`2^64 - 1` whatever the sign, any other value is negated modulo `2^64` after a minus sign.
The result is stored in an `unsigned short`, that is modulo `2^16`.  Characters after the
digits are left unread. -/
def sscanf_hu (s : String) : Option Nat :=
  let cs := s.data.dropWhile isspace
  let neg := cs.head? == some '-'
  let cs := if cs.head? == some '-' || cs.head? == some '+' then cs.tail else cs
  let ds := cs.takeWhile Char.isDigit
  if ds.isEmpty then none
  else
    let v := min (digitsValue ds) (2 ^ 64 - 1)
    let v := if neg && decide (digitsValue ds ≤ 2 ^ 64 - 1) then (2 ^ 64 - v) % 2 ^ 64 else v
    some (v % 2 ^ 16)

/-- Text produced by `sprintf` with `%d` for a non-negative `int`. -/
def sprintf_d (i : Nat) : String := toString i

/-! ## Trace of a run -/

/-- Lines written to `*env`. -/
inductive Message where
  | banner
  | usage (progName : Option String)
  | bothTransportOptions
  | bindingTo (ip : String)
  | rtspServerFailed
  | proxying (url : String)
  | playURL (streamName : String)
  | registerPort (port : Nat)
  | tunnelPort (port : Nat)
  | tunnelUnavailable
  deriving DecidableEq, Repr

/-- Calls into the media engine and output lines, in program order.  An RTSP server object is
identified by the port it was created on. -/
inductive Event where
  | print (m : Message)
  | createRTSPServer (port : Nat) (withREGISTERProxying : Bool)
  | createNewSession (server : Nat) (url streamName : String) (username password : Option String)
      (tunnelOverHTTPPortNum : Nat) (verbosityLevel : Nat)
  | addServerMediaSession (server : Nat) (streamName : String)
  | setUpTunnelingOverHTTP (server : Nat) (port : Nat)
  | doEventLoop
  deriving DecidableEq, Repr

/-- How a run ends: `exit(code)`, inside the event loop (which does not return), a read
outside the argument vector, or an option loop that did not finish within its bound. -/
inductive Outcome where
  | exited (code : Nat)
  | eventLoop
  | fault
  | diverged
  deriving DecidableEq, Repr

/-- A run of the program: what it did and how it ended. -/
structure Run where
  trace : List Event
  outcome : Outcome
  deriving DecidableEq, Repr

/-- Answers of the collaborators outside `main.cpp`. -/
structure Engine where
  /-- Address computed by `our_inet_addr`. -/
  our_inet_addr : String → Nat
  /-- Whether `RTSPServer::createNew` on this port returns a server. -/
  createRTSPServer : Nat → Bool
  /-- Whether `setUpTunnelingOverHTTP` on this port succeeds. -/
  setUpTunnelingOverHTTP : Nat → Bool

/-! ## Program state -/

/-- The globals of `main.cpp` (lines 33-49), `ReceivingInterfaceAddr` (`none` while `main`
has not assigned it), the current argument vector, and the trace so far. -/
structure State where
  progName : Option String := none
  verbosityLevel : Nat := 0
  streamRTPOverTCP : Bool := false
  tunnelOverHTTPPortNum : Nat := 0
  username : Option String := none
  password : Option String := none
  proxyREGISTERRequests : Bool := false
  ReceivingInterfaceAddr : Option Nat := none
  argv : List String := []
  trace : List Event := []
  deriving DecidableEq, Repr

/-- Current value of `argc`. -/
def State.argc (s : State) : Nat := s.argv.length

/-- Statement `*env << m`. -/
def State.emit (s : State) (e : Event) : State := { s with trace := s.trace ++ [e] }

/-- Statements `++argv; --argc;`. -/
def State.shift (s : State) : State := { s with argv := s.argv.tail }

/-- Function `usage()` (lines 67-76): print the synopsis and `exit(1)`. -/
def usage (s : State) : Run :=
  ⟨s.trace ++ [.print (.usage s.progName)], .exited 1⟩

/-- A read of `argv[k]` that is outside the vector. -/
def fault (s : State) : Run := ⟨s.trace, .fault⟩

/-! ## Option loop (lines 105-174) -/

/-- Result of one pass through the body of the `while` loop. -/
inductive Iter where
  | next (s : State)
  | brk (s : State)
  | stop (r : Run)
  deriving DecidableEq, Repr

/-- Case `T` (lines 128-142). -/
def caseT (s : State) : Iter :=
  if 3 < s.argc then
    match s.argv[2]? with
    | none => .stop (fault s)
    | some a2 =>
      if charAt a2 0 ≠ '-' then
        match sscanf_hu a2 with
        | some p =>
          if 0 < p then .next ({ s with tunnelOverHTTPPortNum := p }.shift.shift)
          else .stop (usage { s with tunnelOverHTTPPortNum := p })
        | none => .stop (usage s)
      else .stop (usage s)
  else .stop (usage s)

/-- Case `u` (lines 144-150). -/
def caseU (s : State) : Iter :=
  if s.argc < 4 then .stop (usage s)
  else
    match s.argv[2]?, s.argv[3]? with
    | some a2, some a3 =>
      .next ({ s with username := some a2, password := some a3 }.shift.shift.shift)
    | _, _ => .stop (fault s)

/-- Case `b` (lines 157-165), which falls through to `default` when its test fails. -/
def caseB (E : Engine) (s : State) : Iter :=
  if 3 < s.argc then
    match s.argv[2]? with
    | none => .stop (fault s)
    | some a2 =>
      if charAt a2 0 ≠ '-' then
        .next (({ s with ReceivingInterfaceAddr := some (E.our_inet_addr a2) }.emit
          (.print (.bindingTo a2))).shift.shift)
      else .stop (usage s)
  else .stop (usage s)

/-- Body of the `while (argc > 1)` loop (lines 106-173). -/
def optionStep (E : Engine) (s : State) : Iter :=
  match s.argv[1]? with
  | none => .stop (fault s)
  | some opt =>
    if charAt opt 0 ≠ '-' then .brk s
    else if charAt opt 1 = 'v' then .next { s with verbosityLevel := 1 }.shift
    else if charAt opt 1 = 'V' then .next { s with verbosityLevel := 2 }.shift
    else if charAt opt 1 = 't' then .next { s with streamRTPOverTCP := true }.shift
    else if charAt opt 1 = 'T' then caseT s
    else if charAt opt 1 = 'u' then caseU s
    else if charAt opt 1 = 'R' then .next { s with proxyREGISTERRequests := true }.shift
    else if charAt opt 1 = 'b' then caseB E s
    else .stop (usage s)

/-- The `while (argc > 1)` loop, run for at most `fuel` tests of its condition. -/
def optionLoop (E : Engine) : Nat → State → Except Run State
  | 0, s => .error ⟨s.trace, .diverged⟩
  | fuel + 1, s =>
    if 1 < s.argc then
      match optionStep E s with
      | .next s' => optionLoop E fuel s'
      | .brk s' => .ok s'
      | .stop r => .error r
    else .ok s

/-- The option loop with a bound that always suffices: `argc` drops on every pass. -/
def parseOptions (E : Engine) (s : State) : Except Run State :=
  optionLoop E (s.argc + 1) s

/-! ## Checks after the loop (lines 175-189) -/

/-- Loop `for (i = 1; i < argc; ++i)` of lines 178-180, with `n` passes left. -/
def checkURLs : Nat → Nat → State → Except Run State
  | 0, _, s => .ok s
  | n + 1, i, s =>
    match s.argv[i]? with
    | none => .error (fault s)
    | some a => if strncmpEq a "rtsp://" 7 then checkURLs n (i + 1) s else .error (usage s)

/-- Lines 182-189: `-t` together with `-T` is refused, `-t` alone sets the marker `~0`. -/
def checkTransport (s : State) : Except Run State :=
  if s.streamRTPOverTCP then
    if 0 < s.tunnelOverHTTPPortNum then
      .error (usage (s.emit (.print .bothTransportOptions)))
    else .ok { s with tunnelOverHTTPPortNum := 65535 }
  else .ok s

/-- State at line 104: globals at their defaults, banner printed, `progName = argv[0]`. -/
def initState (argv : List String) : State :=
  { progName := argv[0]?, argv := argv, trace := [.print .banner] }

/-- Lines 92-189: everything `main` does before it creates the RTSP server. -/
def parseArguments (E : Engine) (argv : List String) : Except Run State :=
  if (initState argv).argc < 2 then .error (usage (initState argv))
  else
    match parseOptions E (initState argv) with
    | .error r => .error r
    | .ok s =>
      if s.argc < 2 ∧ s.proxyREGISTERRequests = false then .error (usage s)
      else
        match checkURLs (s.argc - 1) 1 s with
        | .error r => .error r
        | .ok s => checkTransport s

/-! ## Servers and sessions (lines 191-250) -/

/-- Name written into `streamName` (lines 218-222). -/
def streamName (argc i : Nat) : String :=
  if argc = 2 then "proxyStream" else "proxyStream-" ++ sprintf_d i

/-- Loop `for (i = 1; i < argc; ++i)` of lines 215-233, with `n` passes left. -/
def createProxies (server : Nat) : Nat → Nat → State → Except Run State
  | 0, _, s => .ok s
  | n + 1, i, s =>
    match s.argv[i]? with
    | none => .error (fault s)
    | some url =>
      let name := streamName s.argc i
      createProxies server n (i + 1)
        ((((s.emit (.createNewSession server url name s.username s.password
                s.tunnelOverHTTPPortNum s.verbosityLevel)).emit
            (.addServerMediaSession server name)).emit
          (.print (.proxying url))).emit (.print (.playURL name)))

/-- Function `createRTSPServer` (lines 56-62), traced. -/
def createRTSPServer (E : Engine) (s : State) (port : Nat) : State × Option Nat :=
  (s.emit (.createRTSPServer port s.proxyREGISTERRequests),
    if E.createRTSPServer port then some port else none)

/-- Lines 239-247: the short-circuit chain over ports 80, 8000 and 8080. -/
def setUpTunneling (E : Engine) (server : Nat) (s : State) : State :=
  let s := s.emit (.setUpTunnelingOverHTTP server 80)
  if E.setUpTunnelingOverHTTP 80 then s.emit (.print (.tunnelPort 80))
  else
    let s := s.emit (.setUpTunnelingOverHTTP server 8000)
    if E.setUpTunnelingOverHTTP 8000 then s.emit (.print (.tunnelPort 8000))
    else
      let s := s.emit (.setUpTunnelingOverHTTP server 8080)
      if E.setUpTunnelingOverHTTP 8080 then s.emit (.print (.tunnelPort 8080))
      else s.emit (.print .tunnelUnavailable)

/-- Lines 214-250, once an RTSP server exists. -/
def serve (E : Engine) (server : Nat) (s : State) : Run :=
  match createProxies server (s.argc - 1) 1 s with
  | .error r => r
  | .ok s =>
    let s := if s.proxyREGISTERRequests then s.emit (.print (.registerPort server)) else s
    let s := setUpTunneling E server s
    ⟨s.trace ++ [.doEventLoop], .eventLoop⟩

/-- Lines 200-212 followed by the rest of `main`. -/
def startServer (E : Engine) (s : State) : Run :=
  match createRTSPServer E s 554 with
  | (s, some server) => serve E server s
  | (s, none) =>
    match createRTSPServer E s 8554 with
    | (s, some server) => serve E server s
    | (s, none) => ⟨s.trace ++ [.print .rtspServerFailed], .exited 1⟩

/-- Function `main` (lines 89-253). -/
def main (E : Engine) (argv : List String) : Run :=
  match parseArguments E argv with
  | .error r => r
  | .ok s => startServer E s

/-! ## Observations on a trace -/

/-- Ports passed to `createRTSPServer`, in order. -/
def rtspAttempts (tr : List Event) : List Nat :=
  tr.filterMap fun e => match e with
    | .createRTSPServer p _ => some p
    | _ => none

/-- Ports passed to `setUpTunnelingOverHTTP`, in order. -/
def httpAttempts (tr : List Event) : List Nat :=
  tr.filterMap fun e => match e with
    | .setUpTunnelingOverHTTP _ p => some p
    | _ => none

/-- Calls that create or register a relay session, in order. -/
def sessionCalls (tr : List Event) : List Event :=
  tr.filter fun e => match e with
    | .createNewSession .. => true
    | .addServerMediaSession .. => true
    | _ => false

/-- Stream names given to `ProxyServerMediaSession::createNew`, in order. -/
def sessionNames (tr : List Event) : List String :=
  tr.filterMap fun e => match e with
    | .createNewSession _ _ name _ _ _ _ => some name
    | _ => none

/-- An engine whose binds succeed exactly on the listed ports. -/
def engineWith (rtsp http : List Nat) : Engine :=
  ⟨fun _ => 0, fun p => decide (p ∈ rtsp), fun p => decide (p ∈ http)⟩

/-! ## Vocabulary for the statements -/

/-- Events of the session loop for the URLs `urls`, the first of which has index `i`. -/
def proxyEvents (server argc : Nat) (username password : Option String)
    (tunnel verbosity : Nat) : Nat → List String → List Event
  | _, [] => []
  | i, url :: urls =>
    [.createNewSession server url (streamName argc i) username password tunnel verbosity,
     .addServerMediaSession server (streamName argc i),
     .print (.proxying url), .print (.playURL (streamName argc i))] ++
      proxyEvents server argc username password tunnel verbosity (i + 1) urls

/-- Events of the tunnelling chain on the given server. -/
def tunnelEvents (E : Engine) (server : Nat) : List Event :=
  if E.setUpTunnelingOverHTTP 80 then
    [.setUpTunnelingOverHTTP server 80, .print (.tunnelPort 80)]
  else if E.setUpTunnelingOverHTTP 8000 then
    [.setUpTunnelingOverHTTP server 80, .setUpTunnelingOverHTTP server 8000,
      .print (.tunnelPort 8000)]
  else if E.setUpTunnelingOverHTTP 8080 then
    [.setUpTunnelingOverHTTP server 80, .setUpTunnelingOverHTTP server 8000,
      .setUpTunnelingOverHTTP server 8080, .print (.tunnelPort 8080)]
  else
    [.setUpTunnelingOverHTTP server 80, .setUpTunnelingOverHTTP server 8000,
      .setUpTunnelingOverHTTP server 8080, .print .tunnelUnavailable]

/-- A run that ended in `usage()` called from state `s`. -/
def IsUsageOf (s : State) (r : Run) : Prop :=
  r.trace = s.trace ++ [.print (.usage s.progName)] ∧ r.outcome = .exited 1

/-- The usage path: the run printed nothing but messages, the last of them the synopsis,
called no engine function, and ended in `exit(1)`. -/
def UsagePath (r : Run) : Prop :=
  r.outcome = .exited 1 ∧
    ∃ (ms : List Message) (p : Option String), r.trace = (ms ++ [Message.usage p]).map Event.print

/-- What passes through the loop body can change between two states. -/
structure Inv (s s' : State) : Prop where
  argc_le : s'.argc ≤ s.argc
  progName_eq : s'.progName = s.progName
  argv_drop : ∃ k, s'.argv = s.argv.drop k
  trace_ext : ∃ ms : List Message, s'.trace = s.trace ++ ms.map Event.print
  tcp_mono : s.streamRTPOverTCP = true → s'.streamRTPOverTCP = true
  tunnel_mono : 0 < s.tunnelOverHTTPPortNum → 0 < s'.tunnelOverHTTPPortNum
  register_mono : s.proxyREGISTERRequests = true → s'.proxyREGISTERRequests = true

/-- An option together with its value tokens, in the spelling of the usage text. -/
inductive Opt where
  | v | V | t | R
  | T (port : String)
  | u (username password : String)
  | b (ip : String)
  deriving DecidableEq, Repr

/-- Tokens of an option group. -/
def Opt.tokens : Opt → List String
  | .v => ["-v"]
  | .V => ["-V"]
  | .t => ["-t"]
  | .R => ["-R"]
  | .T port => ["-T", port]
  | .u username password => ["-u", username, password]
  | .b ip => ["-b", ip]

/-- Tokens of a sequence of option groups. -/
def optTokens (opts : List Opt) : List String := opts.flatMap Opt.tokens

/-- Effect of an accepted option group on the globals and on the output. -/
def Opt.apply (E : Engine) : Opt → State → State
  | .v, s => { s with verbosityLevel := 1 }
  | .V, s => { s with verbosityLevel := 2 }
  | .t, s => { s with streamRTPOverTCP := true }
  | .R, s => { s with proxyREGISTERRequests := true }
  | .T port, s => { s with tunnelOverHTTPPortNum := (sscanf_hu port).getD 0 }
  | .u username password, s =>
    { s with username := some username, password := some password }
  | .b ip, s =>
    State.emit { s with ReceivingInterfaceAddr := some (E.our_inet_addr ip) }
      (Event.print (.bindingTo ip))

/-- Whether the loop body accepts an option group when `rest` are the tokens after it. -/
def Opt.accepted : Opt → List String → Bool
  | .T port, rest => !rest.isEmpty && charAt port 0 != '-' && 0 < (sscanf_hu port).getD 0
  | .b ip, rest => !rest.isEmpty && charAt ip 0 != '-'
  | _, _ => true

/-- Effect of a sequence of accepted option groups. -/
def applyOpts (E : Engine) (opts : List Opt) (s : State) : State :=
  opts.foldl (fun s o => o.apply E s) s

/-- Events of lines 214-250 on the given server, from state `s`. -/
def serveEvents (E : Engine) (server : Nat) (s : State) : List Event :=
  proxyEvents server s.argc s.username s.password s.tunnelOverHTTPPortNum s.verbosityLevel
      1 s.argv.tail ++
    (if s.proxyREGISTERRequests then [Event.print (.registerPort server)] else []) ++
    tunnelEvents E server ++ [Event.doEventLoop]

/-- Source URL and stream name of each created session, in order. -/
def sessionPairs (tr : List Event) : List (String × String) :=
  tr.filterMap fun e => match e with
    | .createNewSession _ url name _ _ _ _ => some (url, name)
    | _ => none

/-- The server object on which each session or tunnelling call is made, in order. -/
def serversUsed (tr : List Event) : List Nat :=
  tr.filterMap fun e => match e with
    | .createNewSession server _ _ _ _ _ _ => some server
    | .addServerMediaSession server _ => some server
    | .setUpTunnelingOverHTTP server _ => some server
    | _ => none

/-- The session calls made for the URLs `urls`, the first of which has index `i`. -/
def sessionCallsFor (server argc : Nat) (username password : Option String)
    (tunnel verbosity : Nat) : Nat → List String → List Event
  | _, [] => []
  | i, url :: urls =>
    .createNewSession server url (streamName argc i) username password tunnel verbosity ::
      .addServerMediaSession server (streamName argc i) ::
      sessionCallsFor server argc username password tunnel verbosity (i + 1) urls

/-- The port on which `main` obtains its RTSP server: 554, else 8554, else none. -/
def rtspPort (E : Engine) : Option Nat :=
  if E.createRTSPServer 554 then some 554
  else if E.createRTSPServer 8554 then some 8554
  else none

/-- Whether the loop accepts every group of `opts` when `rest` are the tokens after them. -/
def optsAccepted : List Opt → List String → Bool
  | [], _ => true
  | o :: opts, rest => o.accepted (optTokens opts ++ rest) && optsAccepted opts rest

/-- Credentials handed to each created session, in order. -/
def sessionCredentials (tr : List Event) : List (Option String × Option String) :=
  tr.filterMap fun e => match e with
    | .createNewSession _ _ _ username password _ _ => some (username, password)
    | _ => none

/-- The resolved configuration: what lines 102-189 leave in the globals and in `argv` for the
rest of `main`. -/
structure Config where
  verbosityLevel : Nat
  transport : Nat
  username : Option String
  password : Option String
  registerMode : Bool
  bindAddress : Option Nat
  urls : List String
  deriving DecidableEq, Repr

/-- Configuration held by a state: the transport value is `tunnelOverHTTPPortNum`, the URLs
are `argv[1]` to `argv[argc-1]`. -/
def State.config (s : State) : Config :=
  { verbosityLevel := s.verbosityLevel, transport := s.tunnelOverHTTPPortNum,
    username := s.username, password := s.password,
    registerMode := s.proxyREGISTERRequests, bindAddress := s.ReceivingInterfaceAddr,
    urls := s.argv.tail }

/-- Outcome of the resolver: the configuration, or `none` for the usage error. -/
def resolve (E : Engine) (argv : List String) : Option Config :=
  match parseArguments E argv with
  | .ok s => some s.config
  | .error _ => none

/-- Transport value handed to each created session, in order. -/
def sessionTransports (tr : List Event) : List Nat :=
  tr.filterMap fun e => match e with
    | .createNewSession _ _ _ _ _ tunnel _ => some tunnel
    | _ => none

/-- What the run reported about tunnelling: `some p` for "we use port p", `none` for "not
available", in order. -/
def tunnelReports (tr : List Event) : List (Option Nat) :=
  tr.filterMap fun e => match e with
    | .print (.tunnelPort p) => some (some p)
    | .print .tunnelUnavailable => some none
    | _ => none

/-- The setting an option group writes. -/
inductive Setting where
  | verbosity | tcp | tunnel | credentials | register | bind
  deriving DecidableEq, Repr

/-- Setting written by an option group. -/
def Opt.setting : Opt → Setting
  | .v => .verbosity
  | .V => .verbosity
  | .t => .tcp
  | .R => .register
  | .T _ => .tunnel
  | .u _ _ => .credentials
  | .b _ => .bind

/-- Whether the value token of an option group passes the test of its case, apart from the
test on `argc`. -/
def Opt.valueOk : Opt → Bool
  | .T port => charAt port 0 != '-' && 0 < (sscanf_hu port).getD 0
  | .b ip => charAt ip 0 != '-'
  | _ => true

/-- Whether the case of an option group tests `argc > 3`. -/
def Opt.needsFollower : Opt → Bool
  | .T _ => true
  | .b _ => true
  | _ => false

/-- Outcome of lines 175-189 as a function of the state in which the option loop ended. -/
def afterLoop (s : State) : Option Config :=
  if (decide (2 ≤ s.argc) || s.proxyREGISTERRequests) &&
      s.argv.tail.all (fun t => strncmpEq t "rtsp://" 7) &&
      !(s.streamRTPOverTCP && decide (0 < s.tunnelOverHTTPPortNum)) then
    some (State.config { s with tunnelOverHTTPPortNum :=
      if s.streamRTPOverTCP then 65535 else s.tunnelOverHTTPPortNum })
  else none

theorem caseT_next {s s' : State} (h : caseT s = .next s') :
    ∃ a2 p, s.argv[2]? = some a2 ∧ 3 < s.argc ∧ charAt a2 0 ≠ '-' ∧ sscanf_hu a2 = some p ∧ 0 < p ∧
      s' = { s with tunnelOverHTTPPortNum := p, argv := s.argv.tail.tail } := by
  unfold caseT at h
  split_ifs at h with h3
  split at h
  · simp at h
  · rename_i a2 ha2
    split_ifs at h with hc
    split at h
    · rename_i p hp
      split_ifs at h with hp0
      simp [State.shift] at h
      exact ⟨a2, p, ha2, h3, hc, hp, hp0, h.symm⟩
    · simp at h

theorem caseU_next {s s' : State} (h : caseU s = .next s') :
    ∃ a2 a3, s.argv[2]? = some a2 ∧ s.argv[3]? = some a3 ∧ 4 ≤ s.argc ∧
      s' = { s with username := some a2, password := some a3, argv := s.argv.tail.tail.tail } := by
  unfold caseU at h
  split_ifs at h with h3
  split at h
  · rename_i a2 a3 h2 h3'
    simp [State.shift] at h
    exact ⟨a2, a3, h2, h3', by omega, h.symm⟩
  · simp at h

theorem caseB_next {E : Engine} {s s' : State} (h : caseB E s = .next s') :
    ∃ a2, s.argv[2]? = some a2 ∧ 3 < s.argc ∧ charAt a2 0 ≠ '-' ∧
      s' = { s with ReceivingInterfaceAddr := some (E.our_inet_addr a2),
                    trace := s.trace ++ [.print (.bindingTo a2)], argv := s.argv.tail.tail } := by
  unfold caseB at h
  split_ifs at h with h3
  split at h
  · simp at h
  · rename_i a2 ha2
    split_ifs at h with hc
    simp [State.shift, State.emit] at h
    exact ⟨a2, ha2, h3, hc, h.symm⟩

theorem caseT_ne_brk (s s' : State) : caseT s ≠ .brk s' := by
  unfold caseT
  split_ifs
  · split
    · simp
    · split_ifs
      · split
        · split_ifs <;> simp
        · simp
      · simp
  · simp

theorem caseU_ne_brk (s s' : State) : caseU s ≠ .brk s' := by
  unfold caseU
  split_ifs
  · simp
  · split <;> simp

theorem caseB_ne_brk (E : Engine) (s s' : State) : caseB E s ≠ .brk s' := by
  unfold caseB
  split_ifs
  · split
    · simp
    · split_ifs <;> simp
  · simp

theorem isUsageOf_usage (s : State) : IsUsageOf s (usage s) := ⟨rfl, rfl⟩

theorem get2_of_argc {s : State} (h : 3 < s.argc) : ∃ a, s.argv[2]? = some a := by
  unfold State.argc at h
  exact ⟨s.argv[2], List.getElem?_eq_getElem (by omega)⟩

theorem caseT_stop {s : State} {r : Run} (h : caseT s = .stop r) : IsUsageOf s r := by
  unfold caseT at h
  split_ifs at h with h3
  · obtain ⟨a, ha⟩ := get2_of_argc h3
    simp only [ha] at h
    split_ifs at h with hc
    · split at h
      · split_ifs at h
        simp at h; subst h; exact ⟨rfl, rfl⟩
      · simp at h; subst h; exact ⟨rfl, rfl⟩
    · simp at h; subst h; exact ⟨rfl, rfl⟩
  · simp at h; subst h; exact ⟨rfl, rfl⟩

theorem caseU_stop {s : State} {r : Run} (h : caseU s = .stop r) : IsUsageOf s r := by
  unfold caseU at h
  split_ifs at h with h3
  · simp at h; subst h; exact ⟨rfl, rfl⟩
  · have h4 : 3 < s.argv.length := by unfold State.argc at h3; omega
    have e2 : s.argv[2]? = some s.argv[2] := List.getElem?_eq_getElem (by omega)
    have e3 : s.argv[3]? = some s.argv[3] := List.getElem?_eq_getElem (by omega)
    simp [e2, e3] at h

theorem caseB_stop {E : Engine} {s : State} {r : Run} (h : caseB E s = .stop r) :
    IsUsageOf s r := by
  unfold caseB at h
  split_ifs at h with h3
  · obtain ⟨a, ha⟩ := get2_of_argc h3
    simp only [ha] at h
    split_ifs at h with hc
    simp at h; subst h; exact ⟨rfl, rfl⟩
  · simp at h; subst h; exact ⟨rfl, rfl⟩

theorem optionStep_brk {E : Engine} {s s' : State} (h : optionStep E s = .brk s') : s' = s := by
  unfold optionStep at h
  split at h
  · simp at h
  · split_ifs at h
    · simp at h; exact h.symm
    · exact absurd h (caseT_ne_brk _ _)
    · exact absurd h (caseU_ne_brk _ _)
    · exact absurd h (caseB_ne_brk _ _ _)

theorem optionStep_stop {E : Engine} {s : State} {r : Run} (h1 : 1 < s.argc)
    (h : optionStep E s = .stop r) : IsUsageOf s r := by
  unfold optionStep at h
  have e1 : s.argv[1]? = some s.argv[1] := List.getElem?_eq_getElem h1
  simp only [e1] at h
  split_ifs at h
  · exact caseT_stop h
  · exact caseU_stop h
  · exact caseB_stop h
  · simp at h; subst h; exact ⟨rfl, rfl⟩

theorem inv_of_flag {s s' : State} (h1 : 1 < s.argc) (hargv : s'.argv = s.argv.tail)
    (hp : s'.progName = s.progName) (ht : s'.trace = s.trace)
    (h2 : s.streamRTPOverTCP = true → s'.streamRTPOverTCP = true)
    (h3 : 0 < s.tunnelOverHTTPPortNum → 0 < s'.tunnelOverHTTPPortNum)
    (h4 : s.proxyREGISTERRequests = true → s'.proxyREGISTERRequests = true) :
    s'.argc < s.argc ∧ Inv s s' := by
  have hlt : s'.argc < s.argc := by
    unfold State.argc at *; rw [hargv, List.length_tail]; omega
  exact ⟨hlt, ⟨le_of_lt hlt, hp, ⟨1, by rw [hargv, List.drop_one]⟩, ⟨[], by simp [ht]⟩, h2, h3, h4⟩⟩

/-- An accepted pass through the loop body lowers `argc` and keeps the invariant. -/
theorem optionStep_next {E : Engine} {s s' : State} (h : optionStep E s = .next s') :
    s'.argc < s.argc ∧ Inv s s' := by
  unfold optionStep at h
  split at h
  · simp at h
  · rename_i opt hopt
    have h1 : 1 < s.argc := by
      unfold State.argc
      by_contra hc
      rw [List.getElem?_eq_none (by omega)] at hopt
      simp at hopt
    split_ifs at h
    · simp [State.shift] at h; subst h
      exact inv_of_flag h1 rfl rfl rfl id id id
    · simp [State.shift] at h; subst h
      exact inv_of_flag h1 rfl rfl rfl id id id
    · simp [State.shift] at h; subst h
      exact inv_of_flag h1 rfl rfl rfl (fun _ => rfl) id id
    · obtain ⟨a2, p, _, h3, _, _, hp0, rfl⟩ := caseT_next h
      have hlt : s.argv.tail.tail.length < s.argv.length := by
        unfold State.argc at *; simp only [List.length_tail]; omega
      exact ⟨hlt, ⟨le_of_lt hlt, rfl, ⟨2, by simp [← List.drop_one]⟩, ⟨[], by simp⟩, id,
        fun _ => hp0, id⟩⟩
    · obtain ⟨a2, a3, _, _, h4, rfl⟩ := caseU_next h
      have hlt : s.argv.tail.tail.tail.length < s.argv.length := by
        unfold State.argc at *; simp only [List.length_tail]; omega
      exact ⟨hlt, ⟨le_of_lt hlt, rfl, ⟨3, by simp [← List.drop_one]⟩, ⟨[], by simp⟩, id, id, id⟩⟩
    · simp [State.shift] at h; subst h
      exact inv_of_flag h1 rfl rfl rfl id id (fun _ => rfl)
    · obtain ⟨a2, _, h3, _, rfl⟩ := caseB_next h
      have hlt : s.argv.tail.tail.length < s.argv.length := by
        unfold State.argc at *; simp only [List.length_tail]; omega
      exact ⟨hlt, ⟨le_of_lt hlt, rfl, ⟨2, by simp [← List.drop_one]⟩,
        ⟨[.bindingTo a2], by simp⟩, id, id, id⟩⟩

theorem Inv.refl (s : State) : Inv s s :=
  ⟨le_rfl, rfl, ⟨0, by simp⟩, ⟨[], by simp⟩, id, id, id⟩

theorem Inv.trans {a b c : State} (h1 : Inv a b) (h2 : Inv b c) : Inv a c := by
  obtain ⟨k1, hk1⟩ := h1.argv_drop
  obtain ⟨k2, hk2⟩ := h2.argv_drop
  obtain ⟨m1, hm1⟩ := h1.trace_ext
  obtain ⟨m2, hm2⟩ := h2.trace_ext
  exact ⟨le_trans h2.argc_le h1.argc_le, h2.progName_eq.trans h1.progName_eq,
    ⟨k1 + k2, by rw [hk2, hk1, List.drop_drop]⟩,
    ⟨m1 ++ m2, by rw [hm2, hm1]; simp⟩,
    fun h => h2.tcp_mono (h1.tcp_mono h), fun h => h2.tunnel_mono (h1.tunnel_mono h),
    fun h => h2.register_mono (h1.register_mono h)⟩

/-! ## Lemmas: the option loop -/

/-- Any bound above `argc` gives the same result: the loop never runs out of fuel. -/
theorem optionLoop_fuel (E : Engine) : ∀ (n m : Nat) (s : State), s.argc < n → s.argc < m →
    optionLoop E n s = optionLoop E m s := by
  intro n
  induction n with
  | zero => intro m s h; omega
  | succ n ih =>
    intro m s hn hm
    cases m with
    | zero => omega
    | succ m =>
      simp only [optionLoop]
      split_ifs with h1
      · cases hstep : optionStep E s with
        | next s' =>
          have := (optionStep_next hstep).1
          simp only
          exact ih m s' (by omega) (by omega)
        | brk s' => rfl
        | stop r => rfl
      · rfl

theorem parseOptions_step (E : Engine) (s : State) (h : 1 < s.argc) :
    parseOptions E s =
      match optionStep E s with
      | .next s' => parseOptions E s'
      | .brk s' => .ok s'
      | .stop r => .error r := by
  unfold parseOptions
  simp only [optionLoop, h, if_true]
  cases hstep : optionStep E s with
  | next s' =>
    have := (optionStep_next hstep).1
    simp only
    exact optionLoop_fuel E s.argc (s'.argc + 1) s' (by omega) (by omega)
  | brk s' => rfl
  | stop r => rfl

theorem parseOptions_done (E : Engine) (s : State) (h : ¬ 1 < s.argc) :
    parseOptions E s = .ok s := by
  unfold parseOptions
  simp [optionLoop, h]

/-- A finished loop ends in a state related to the start by the invariant. -/
theorem optionLoop_ok (E : Engine) : ∀ (n : Nat) (s s' : State),
    optionLoop E n s = .ok s' → Inv s s' := by
  intro n
  induction n with
  | zero => intro s s' h; simp [optionLoop] at h
  | succ n ih =>
    intro s s' h
    simp only [optionLoop] at h
    split_ifs at h with h1
    · cases hstep : optionStep E s with
      | next s1 =>
        rw [hstep] at h
        exact (optionStep_next hstep).2.trans (ih s1 s' h)
      | brk s1 =>
        rw [hstep] at h
        simp at h
        subst h
        rw [optionStep_brk hstep]
        exact Inv.refl s
      | stop r => rw [hstep] at h; simp at h
    · simp at h; subst h; exact Inv.refl s

/-- A loop that stops does so through `usage()`, never by a bad read or by running out of
fuel. -/
theorem optionLoop_error (E : Engine) : ∀ (n : Nat) (s : State) (r : Run), s.argc < n →
    optionLoop E n s = .error r → ∃ s0, Inv s s0 ∧ IsUsageOf s0 r := by
  intro n
  induction n with
  | zero => intro s r h; omega
  | succ n ih =>
    intro s r hn h
    simp only [optionLoop] at h
    split_ifs at h with h1
    · cases hstep : optionStep E s with
      | next s1 =>
        rw [hstep] at h
        have hs := optionStep_next hstep
        obtain ⟨s0, hinv, hu⟩ := ih s1 r (by have := hs.1; omega) h
        exact ⟨s0, hs.2.trans hinv, hu⟩
      | brk s1 => rw [hstep] at h; simp at h
      | stop r1 =>
        rw [hstep] at h
        simp at h
        subst h
        exact ⟨s, Inv.refl s, optionStep_stop h1 hstep⟩

/-! ## Lemmas: decimal numerals -/

theorem digitChar_value (k : Nat) (h : k < 10) : (Nat.digitChar k).toNat - 48 = k := by
  interval_cases k <;> rfl

theorem digitChar_isDigit (k : Nat) (h : k < 10) : (Nat.digitChar k).isDigit = true := by
  interval_cases k <;> rfl

theorem toDigitsCore_append (b : Nat) : ∀ (fuel n : Nat) (ds : List Char),
    Nat.toDigitsCore b fuel n ds = Nat.toDigitsCore b fuel n [] ++ ds := by
  intro fuel
  induction fuel with
  | zero => intro n ds; simp [Nat.toDigitsCore]
  | succ fuel ih =>
    intro n ds
    simp only [Nat.toDigitsCore]
    split_ifs
    · simp
    · rw [ih (n / b) (Nat.digitChar (n % b) :: ds), ih (n / b) [Nat.digitChar (n % b)]]
      simp

theorem digitsValue_append_singleton (xs : List Char) (d : Char) :
    digitsValue (xs ++ [d]) = 10 * digitsValue xs + (d.toNat - 48) := by
  simp [digitsValue, List.foldl_append]

/-- Reading back the digits printed for `n` gives `n`. -/
theorem digitsValue_toDigitsCore : ∀ (fuel n : Nat), n < fuel →
    digitsValue (Nat.toDigitsCore 10 fuel n []) = n := by
  intro fuel
  induction fuel with
  | zero => intro n h; omega
  | succ fuel ih =>
    intro n h
    simp only [Nat.toDigitsCore]
    split_ifs with h0
    · have hn : n < 10 := by omega
      rw [Nat.mod_eq_of_lt hn]
      simp [digitsValue, digitChar_value n hn]
    · rw [toDigitsCore_append, digitsValue_append_singleton, ih (n / 10) (by omega),
        digitChar_value (n % 10) (Nat.mod_lt _ (by decide))]
      omega

theorem toDigitsCore_isDigit : ∀ (fuel n : Nat), ∀ c ∈ Nat.toDigitsCore 10 fuel n [],
    c.isDigit = true := by
  intro fuel
  induction fuel with
  | zero => intro n c hc; simp [Nat.toDigitsCore] at hc
  | succ fuel ih =>
    intro n c hc
    simp only [Nat.toDigitsCore] at hc
    split_ifs at hc with h0
    · simp at hc; subst hc; exact digitChar_isDigit _ (Nat.mod_lt _ (by decide))
    · rw [toDigitsCore_append] at hc
      simp at hc
      rcases hc with hc | hc
      · exact ih _ c hc
      · subst hc; exact digitChar_isDigit _ (Nat.mod_lt _ (by decide))

theorem toDigitsCore_ne_nil : ∀ (fuel n : Nat), Nat.toDigitsCore 10 (fuel + 1) n [] ≠ [] := by
  intro fuel n
  simp only [Nat.toDigitsCore]
  split_ifs
  · simp
  · rw [toDigitsCore_append]; simp

theorem toString_data (n : Nat) : (toString n).data = Nat.toDigits 10 n := rfl

theorem digitsValue_toString (n : Nat) : digitsValue (toString n).data = n := by
  rw [toString_data]
  exact digitsValue_toDigitsCore (n + 1) n (by omega)

/-- Decimal rendering is injective. -/
theorem sprintf_d_injective : Function.Injective sprintf_d := by
  intro a b h
  have := congrArg (fun s : String => digitsValue s.data) h
  simpa [sprintf_d, digitsValue_toString] using this

theorem streamName_injective (argc : Nat) (h : argc ≠ 2) :
    Function.Injective (streamName argc) := by
  intro a b hab
  simp only [streamName, h, if_false] at hab
  apply sprintf_d_injective
  have := congrArg String.data hab
  simp only [String.data_append] at this
  exact String.ext (List.append_cancel_left this)

theorem isDigit_not_special (c : Char) (h : c.isDigit = true) :
    isspace c = false ∧ c ≠ '-' ∧ c ≠ '+' := by
  refine ⟨?_, ?_, ?_⟩
  · simp only [isspace, Bool.or_eq_false_iff, beq_eq_false_iff_ne]
    refine ⟨⟨⟨⟨⟨?_, ?_⟩, ?_⟩, ?_⟩, ?_⟩, ?_⟩ <;> (rintro rfl; revert h; decide)
  · rintro rfl; revert h; decide
  · rintro rfl; revert h; decide

/-- Scanning a run of digits: the value is the value of the digits, saturated and then
truncated to 16 bits. -/
theorem sscanf_hu_digits (s : String) (hne : s.data ≠ [])
    (hd : ∀ c ∈ s.data, c.isDigit = true) :
    sscanf_hu s = some (min (digitsValue s.data) (2 ^ 64 - 1) % 2 ^ 16) := by
  obtain ⟨c, l, hl⟩ := List.exists_cons_of_ne_nil hne
  have hc := isDigit_not_special c (hd c (by simp [hl]))
  have htw : (c :: l).takeWhile Char.isDigit = c :: l := by
    rw [List.takeWhile_eq_self_iff]
    intro x hx; exact hd x (by rw [hl]; exact hx)
  unfold sscanf_hu
  simp only [hl, List.dropWhile_cons, hc.1, Bool.false_eq_true, if_false, List.head?_cons]
  have h1 : (some c == some '-') = false := by simpa using hc.2.1
  have h2 : (some c == some '+') = false := by simpa using hc.2.2
  simp only [h1, h2, Bool.or_self, Bool.false_and, Bool.false_eq_true, if_false, htw]
  simp

theorem sscanf_hu_toString (p : Nat) (h : p < 65536) : sscanf_hu (toString p) = some p := by
  rw [sscanf_hu_digits (toString p)
    (by rw [toString_data]; exact toDigitsCore_ne_nil p p)
    (by rw [toString_data]; exact toDigitsCore_isDigit (p + 1) p),
    digitsValue_toString]
  have : min p (2 ^ 64 - 1) = p := by simp; omega
  rw [this]
  simp; omega


/-! ## Lemmas: the checks after the loop -/

theorem checkURLs_ok : ∀ (n i : Nat) (s s' : State), checkURLs n i s = .ok s' →
    s' = s ∧ ∀ j, i ≤ j → j < i + n → ∃ a, s.argv[j]? = some a ∧ strncmpEq a "rtsp://" 7 = true := by
  intro n
  induction n with
  | zero =>
    intro i s s' h
    simp [checkURLs] at h
    exact ⟨h.symm, fun j h1 h2 => by omega⟩
  | succ n ih =>
    intro i s s' h
    simp only [checkURLs] at h
    split at h
    · simp at h
    · rename_i a ha
      split_ifs at h with hc
      obtain ⟨h1, h2⟩ := ih (i + 1) s s' h
      refine ⟨h1, fun j hj1 hj2 => ?_⟩
      rcases Nat.eq_or_lt_of_le hj1 with rfl | hlt
      · exact ⟨a, ha, hc⟩
      · exact h2 j hlt (by omega)

theorem checkURLs_error : ∀ (n i : Nat) (s : State) (r : Run), i + n ≤ s.argc →
    checkURLs n i s = .error r → IsUsageOf s r := by
  intro n
  induction n with
  | zero => intro i s r _ h; simp [checkURLs] at h
  | succ n ih =>
    intro i s r hb h
    simp only [checkURLs] at h
    have hi : i < s.argv.length := by unfold State.argc at hb; omega
    rw [List.getElem?_eq_getElem hi] at h
    simp only at h
    split_ifs at h with hc
    · exact ih (i + 1) s r (by omega) h
    · simp at h; subst h; exact ⟨rfl, rfl⟩

theorem checkURLs_of_all : ∀ (n i : Nat) (s : State), i + n ≤ s.argc →
    (∀ t ∈ s.argv.drop i, strncmpEq t "rtsp://" 7 = true) → checkURLs n i s = .ok s := by
  intro n
  induction n with
  | zero => intro i s _ _; rfl
  | succ n ih =>
    intro i s hb hall
    have hi : i < s.argv.length := by unfold State.argc at hb; omega
    have hd : s.argv.drop i = s.argv[i] :: s.argv.drop (i + 1) := List.drop_eq_getElem_cons hi
    simp only [checkURLs, List.getElem?_eq_getElem hi]
    rw [hall s.argv[i] (hd ▸ List.mem_cons_self _ _)]
    simp only [if_true]
    exact ih (i + 1) s (by omega) (fun t ht => hall t (by rw [hd]; exact List.mem_cons_of_mem _ ht))

theorem checkURLs_tail {s s' : State} (h : checkURLs (s.argc - 1) 1 s = .ok s') :
    ∀ t ∈ s.argv.tail, strncmpEq t "rtsp://" 7 = true := by
  obtain ⟨_, h2⟩ := checkURLs_ok _ _ _ _ h
  intro t ht
  obtain ⟨k, hk, rfl⟩ := List.getElem_of_mem ht
  simp only [List.length_tail] at hk
  obtain ⟨a, ha, hc⟩ := h2 (k + 1) (by omega) (by unfold State.argc; omega)
  have : s.argv[k + 1]? = some (s.argv.tail[k]) := by
    rw [List.getElem?_eq_getElem (by omega)]
    simp [List.getElem_tail]
  rw [this] at ha
  injection ha with ha
  rw [ha]; exact hc

/-- What an accepted transport check does. -/
theorem checkTransport_ok {s s' : State} (h : checkTransport s = .ok s') :
    ¬ (s.streamRTPOverTCP = true ∧ 0 < s.tunnelOverHTTPPortNum) ∧
    s' = { s with tunnelOverHTTPPortNum :=
      if s.streamRTPOverTCP then 65535 else s.tunnelOverHTTPPortNum } := by
  unfold checkTransport at h
  split_ifs at h with h1 h2
  · simp at h; subst h; simp [h1, h2]
  · simp at h; subst h; cases s; simp_all

theorem checkTransport_error {s : State} {r : Run} (h : checkTransport s = .error r) :
    (s.streamRTPOverTCP = true ∧ 0 < s.tunnelOverHTTPPortNum) ∧
    IsUsageOf (s.emit (.print .bothTransportOptions)) r := by
  unfold checkTransport at h
  split_ifs at h with h1 h2
  simp at h; subst h
  exact ⟨⟨h1, h2⟩, rfl, rfl⟩

/-- The stages of an accepted argument vector. -/
theorem parseArguments_ok {E : Engine} {argv : List String} {s : State}
    (h : parseArguments E argv = .ok s) :
    ∃ s1, parseOptions E (initState argv) = .ok s1 ∧ 2 ≤ argv.length ∧
      (2 ≤ s1.argc ∨ s1.proxyREGISTERRequests = true) ∧
      (∀ t ∈ s1.argv.tail, strncmpEq t "rtsp://" 7 = true) ∧
      ¬ (s1.streamRTPOverTCP = true ∧ 0 < s1.tunnelOverHTTPPortNum) ∧
      s = { s1 with tunnelOverHTTPPortNum :=
        if s1.streamRTPOverTCP then 65535 else s1.tunnelOverHTTPPortNum } := by
  unfold parseArguments at h
  split_ifs at h with h0
  split at h
  · simp at h
  · rename_i s1 hs1
    split_ifs at h with h1
    split at h
    · simp at h
    · rename_i s2 hs2
      have h2 := (checkURLs_ok _ _ _ _ hs2).1
      subst h2
      obtain ⟨h3, h4⟩ := checkTransport_ok h
      refine ⟨s2, hs1, ?_, ?_, checkURLs_tail hs2, h3, h4⟩
      · simpa [initState, State.argc] using h0
      · by_contra hc
        apply h1
        push_neg at hc
        exact ⟨by omega, by simpa using hc.2⟩

theorem initState_trace (argv : List String) :
    (initState argv).trace = [Message.banner].map Event.print := rfl

/-- A rejected argument vector ends on the usage path. -/
theorem parseArguments_error {E : Engine} {argv : List String} {r : Run}
    (h : parseArguments E argv = .error r) : UsagePath r := by
  have key : ∀ s0 : State, (∃ ms : List Message, s0.trace = ms.map Event.print) →
      IsUsageOf s0 r → UsagePath r := by
    rintro s0 ⟨ms, hms⟩ ⟨h1, h2⟩
    exact ⟨h2, ms, s0.progName, by rw [h1, hms]; simp⟩
  have inv_prints : ∀ s0 : State, Inv (initState argv) s0 →
      ∃ ms : List Message, s0.trace = ms.map Event.print := by
    intro s0 hinv
    obtain ⟨ms, hms⟩ := hinv.trace_ext
    exact ⟨[Message.banner] ++ ms, by rw [hms, initState_trace]; simp⟩
  unfold parseArguments at h
  split_ifs at h with h0
  · simp at h; subst h
    exact key (initState argv) ⟨[Message.banner], rfl⟩ ⟨rfl, rfl⟩
  · split at h
    · rename_i r1 hr1
      simp at h; subst h
      obtain ⟨s0, hinv, hu⟩ := optionLoop_error E _ _ _ (by omega) hr1
      exact key s0 (inv_prints s0 hinv) hu
    · rename_i s1 hs1
      have hinv := optionLoop_ok E _ _ _ hs1
      split_ifs at h with h1
      · simp at h; subst h
        exact key s1 (inv_prints s1 hinv) ⟨rfl, rfl⟩
      · split at h
        · rename_i r2 hr2
          simp at h; subst h
          rcases Nat.eq_zero_or_pos s1.argc with hz | hpos
          · rw [hz] at hr2; simp [checkURLs] at hr2
          · exact key s1 (inv_prints s1 hinv) (checkURLs_error _ _ _ _ (by omega) hr2)
        · rename_i s2 hs2
          have h2 := (checkURLs_ok _ _ _ _ hs2).1
          subst h2
          obtain ⟨_, hu⟩ := checkTransport_error h
          obtain ⟨ms, hms⟩ := inv_prints s2 hinv
          exact key _ ⟨ms ++ [Message.bothTransportOptions], by simp [State.emit, hms]⟩ hu

theorem parseArguments_trace {E : Engine} {argv : List String} {s : State}
    (h : parseArguments E argv = .ok s) : ∃ ms : List Message, s.trace = ms.map Event.print := by
  obtain ⟨s1, hs1, _, _, _, _, rfl⟩ := parseArguments_ok h
  obtain ⟨ms, hms⟩ := (optionLoop_ok E _ _ _ hs1).trace_ext
  exact ⟨[Message.banner] ++ ms, by simp [hms, initState_trace]⟩


/-! ## Lemmas: servers and sessions -/

theorem createProxies_eq (server : Nat) : ∀ (n i : Nat) (s : State), i + n = s.argc →
    createProxies server n i s = .ok { s with trace := s.trace ++
      (proxyEvents server s.argc s.username s.password s.tunnelOverHTTPPortNum s.verbosityLevel
        i (s.argv.drop i)) } := by
  intro n
  induction n with
  | zero =>
    intro i s h
    have : s.argv.drop i = [] := by
      apply List.drop_eq_nil_of_le; simp [State.argc] at h; omega
    simp [createProxies, this, proxyEvents]
  | succ n ih =>
    intro i s h
    have hi : i < s.argv.length := by simp [State.argc] at h; omega
    have hd : s.argv.drop i = s.argv[i] :: s.argv.drop (i + 1) :=
      List.drop_eq_getElem_cons hi
    have hg : s.argv[i]? = some s.argv[i] := List.getElem?_eq_getElem hi
    rw [createProxies]
    simp only [hg]
    rw [ih]
    · rw [hd]; simp [State.emit, State.argc, proxyEvents]
    · simp [State.emit, State.argc] at h ⊢; omega

theorem setUpTunneling_eq (E : Engine) (server : Nat) (s : State) :
    setUpTunneling E server s = { s with trace := s.trace ++ tunnelEvents E server } := by
  unfold setUpTunneling tunnelEvents
  cases E.setUpTunnelingOverHTTP 80 <;> cases E.setUpTunnelingOverHTTP 8000 <;>
    cases E.setUpTunnelingOverHTTP 8080 <;> simp [State.emit]


theorem createProxies_all (server : Nat) (s : State) :
    createProxies server (s.argc - 1) 1 s = .ok { s with trace := s.trace ++
      (proxyEvents server s.argc s.username s.password s.tunnelOverHTTPPortNum s.verbosityLevel
        1 s.argv.tail) } := by
  rcases Nat.eq_zero_or_pos s.argc with hz | hpos
  · have hnil : s.argv = [] := by simpa [State.argc] using hz
    rw [hz]
    cases s
    simp only at hnil
    subst hnil
    simp [createProxies, proxyEvents]
  · rw [createProxies_eq server (s.argc - 1) 1 s (by omega), List.drop_one]

theorem serve_eq (E : Engine) (server : Nat) (s : State) :
    serve E server s = ⟨s.trace ++ serveEvents E server s, .eventLoop⟩ := by
  unfold serve serveEvents
  rw [createProxies_all]
  simp only [setUpTunneling_eq]
  split_ifs <;> simp [State.emit]

/-- The run of an accepted configuration, by which RTSP port binds. -/
theorem startServer_eq (E : Engine) (s : State) :
    startServer E s =
      if E.createRTSPServer 554 = true then
        ⟨s.trace ++ [.createRTSPServer 554 s.proxyREGISTERRequests] ++ serveEvents E 554 s,
          .eventLoop⟩
      else if E.createRTSPServer 8554 = true then
        ⟨s.trace ++ [.createRTSPServer 554 s.proxyREGISTERRequests,
            .createRTSPServer 8554 s.proxyREGISTERRequests] ++ serveEvents E 8554 s,
          .eventLoop⟩
      else
        ⟨s.trace ++ [.createRTSPServer 554 s.proxyREGISTERRequests,
            .createRTSPServer 8554 s.proxyREGISTERRequests, .print .rtspServerFailed],
          .exited 1⟩ := by
  unfold startServer createRTSPServer
  cases h1 : E.createRTSPServer 554
  · cases h2 : E.createRTSPServer 8554
    · simp [State.emit]
    · simp [State.emit, serve_eq, serveEvents, State.argc]
  · simp [State.emit, serve_eq, serveEvents, State.argc]

theorem main_of_ok {E : Engine} {argv : List String} {s : State}
    (h : parseArguments E argv = .ok s) : main E argv = startServer E s := by
  unfold main; rw [h]

theorem main_of_error {E : Engine} {argv : List String} {r : Run}
    (h : parseArguments E argv = .error r) : main E argv = r := by
  unfold main; rw [h]

/-! ## Lemmas: observations -/

@[simp] theorem sessionCalls_append (a b : List Event) :
    sessionCalls (a ++ b) = sessionCalls a ++ sessionCalls b := by
  simp [sessionCalls]

@[simp] theorem sessionPairs_append (a b : List Event) :
    sessionPairs (a ++ b) = sessionPairs a ++ sessionPairs b := by
  simp [sessionPairs]

@[simp] theorem sessionNames_append (a b : List Event) :
    sessionNames (a ++ b) = sessionNames a ++ sessionNames b := by
  simp [sessionNames]

@[simp] theorem rtspAttempts_append (a b : List Event) :
    rtspAttempts (a ++ b) = rtspAttempts a ++ rtspAttempts b := by
  simp [rtspAttempts]

@[simp] theorem httpAttempts_append (a b : List Event) :
    httpAttempts (a ++ b) = httpAttempts a ++ httpAttempts b := by
  simp [httpAttempts]

@[simp] theorem serversUsed_append (a b : List Event) :
    serversUsed (a ++ b) = serversUsed a ++ serversUsed b := by
  simp [serversUsed]

@[simp] theorem sessionCalls_prints (ms : List Message) :
    sessionCalls (ms.map Event.print) = [] := by
  induction ms with
  | nil => rfl
  | cons m ms ih => simp [sessionCalls]

@[simp] theorem sessionPairs_prints (ms : List Message) :
    sessionPairs (ms.map Event.print) = [] := by
  induction ms with
  | nil => rfl
  | cons m ms ih => simp [sessionPairs]

@[simp] theorem sessionNames_prints (ms : List Message) :
    sessionNames (ms.map Event.print) = [] := by
  induction ms with
  | nil => rfl
  | cons m ms ih => simp [sessionNames]

@[simp] theorem rtspAttempts_prints (ms : List Message) :
    rtspAttempts (ms.map Event.print) = [] := by
  induction ms with
  | nil => rfl
  | cons m ms ih => simp [rtspAttempts]

@[simp] theorem httpAttempts_prints (ms : List Message) :
    httpAttempts (ms.map Event.print) = [] := by
  induction ms with
  | nil => rfl
  | cons m ms ih => simp [httpAttempts]

@[simp] theorem serversUsed_prints (ms : List Message) :
    serversUsed (ms.map Event.print) = [] := by
  induction ms with
  | nil => rfl
  | cons m ms ih => simp [serversUsed]

theorem sessionCalls_proxyEvents (server argc : Nat) (u p : Option String) (t v : Nat) :
    ∀ (urls : List String) (i : Nat), sessionCalls (proxyEvents server argc u p t v i urls) =
      sessionCallsFor server argc u p t v i urls := by
  intro urls
  induction urls with
  | nil => intro i; rfl
  | cons url urls ih =>
    intro i
    simp only [proxyEvents, sessionCalls_append, ih, sessionCallsFor]
    simp [sessionCalls]

theorem sessionPairs_proxyEvents (server argc : Nat) (u p : Option String) (t v : Nat) :
    ∀ (urls : List String) (i : Nat), sessionPairs (proxyEvents server argc u p t v i urls) =
      urls.zip ((List.range' i urls.length).map (streamName argc)) := by
  intro urls
  induction urls with
  | nil => intro i; rfl
  | cons url urls ih =>
    intro i
    simp only [proxyEvents, sessionPairs_append, ih]
    simp [sessionPairs, List.range'_succ]

theorem sessionNames_eq_pairs (tr : List Event) :
    sessionNames tr = (sessionPairs tr).map Prod.snd := by
  induction tr with
  | nil => rfl
  | cons e tr ih =>
    cases e <;> simp_all [sessionNames, sessionPairs, List.filterMap_cons]

theorem rtspAttempts_proxyEvents (server argc : Nat) (u p : Option String) (t v : Nat) :
    ∀ (urls : List String) (i : Nat), rtspAttempts (proxyEvents server argc u p t v i urls) = [] := by
  intro urls
  induction urls with
  | nil => intro i; rfl
  | cons url urls ih =>
    intro i
    simp only [proxyEvents, rtspAttempts_append, ih]
    simp [rtspAttempts]

theorem httpAttempts_proxyEvents (server argc : Nat) (u p : Option String) (t v : Nat) :
    ∀ (urls : List String) (i : Nat), httpAttempts (proxyEvents server argc u p t v i urls) = [] := by
  intro urls
  induction urls with
  | nil => intro i; rfl
  | cons url urls ih =>
    intro i
    simp only [proxyEvents, httpAttempts_append, ih]
    simp [httpAttempts]

theorem serversUsed_proxyEvents (server argc : Nat) (u p : Option String) (t v : Nat) :
    ∀ (urls : List String) (i : Nat),
      ∀ x ∈ serversUsed (proxyEvents server argc u p t v i urls), x = server := by
  intro urls
  induction urls with
  | nil => intro i x hx; simp [proxyEvents, serversUsed] at hx
  | cons url urls ih =>
    intro i x hx
    simp only [proxyEvents, serversUsed_append, List.mem_append] at hx
    rcases hx with hx | hx
    · simp [serversUsed] at hx; exact hx
    · exact ih _ x hx

theorem tunnelEvents_obs (E : Engine) (server : Nat) :
    sessionCalls (tunnelEvents E server) = [] ∧ sessionPairs (tunnelEvents E server) = [] ∧
    rtspAttempts (tunnelEvents E server) = [] ∧
    (∀ x ∈ serversUsed (tunnelEvents E server), x = server) ∧
    serversUsed (tunnelEvents E server) ≠ [] := by
  unfold tunnelEvents
  split_ifs <;> simp [sessionCalls, sessionPairs, rtspAttempts, serversUsed]


/-! ## Lemmas: accepted runs -/

theorem rtspPort_cases (E : Engine) :
    (E.createRTSPServer 554 = true ∧ rtspPort E = some 554) ∨
    (E.createRTSPServer 554 = false ∧ E.createRTSPServer 8554 = true ∧ rtspPort E = some 8554) ∨
    (E.createRTSPServer 554 = false ∧ E.createRTSPServer 8554 = false ∧ rtspPort E = none) := by
  unfold rtspPort
  cases E.createRTSPServer 554 <;> cases E.createRTSPServer 8554 <;> simp

theorem serveEvents_obs (E : Engine) (server : Nat) (s : State) :
    sessionCalls (serveEvents E server s) =
      sessionCallsFor server s.argc s.username s.password s.tunnelOverHTTPPortNum
        s.verbosityLevel 1 s.argv.tail ∧
    sessionPairs (serveEvents E server s) =
      s.argv.tail.zip ((List.range' 1 s.argv.tail.length).map (streamName s.argc)) ∧
    rtspAttempts (serveEvents E server s) = [] ∧
    (∀ x ∈ serversUsed (serveEvents E server s), x = server) ∧
    serversUsed (serveEvents E server s) ≠ [] := by
  have ht := tunnelEvents_obs E server
  unfold serveEvents
  refine ⟨?_, ?_, ?_, ?_, ?_⟩
  · simp only [sessionCalls_append, sessionCalls_proxyEvents, ht.1]
    split_ifs <;> simp [sessionCalls]
  · simp only [sessionPairs_append, sessionPairs_proxyEvents, ht.2.1]
    split_ifs <;> simp [sessionPairs]
  · simp only [rtspAttempts_append, rtspAttempts_proxyEvents, ht.2.2.1]
    split_ifs <;> simp [rtspAttempts]
  · intro x hx
    simp only [serversUsed_append, List.mem_append] at hx
    rcases hx with ((hx | hx) | hx) | hx
    · exact serversUsed_proxyEvents _ _ _ _ _ _ _ _ x hx
    · split_ifs at hx <;> simp [serversUsed] at hx
    · exact ht.2.2.2.1 x hx
    · simp [serversUsed] at hx
  · simp only [serversUsed_append]
    intro h
    simp only [List.append_eq_nil] at h
    exact ht.2.2.2.2 h.1.2

/-- Trace and outcome of an accepted run on which an RTSP port binds. -/
theorem main_bound {E : Engine} {argv : List String} {s : State} {server : Nat}
    (hacc : parseArguments E argv = .ok s) (hp : rtspPort E = some server) :
    (main E argv).outcome = .eventLoop ∧
    ∃ (ms : List Message) (b : Bool), (main E argv).trace =
      ms.map Event.print ++
        (if server = 554 then [Event.createRTSPServer 554 b]
          else [Event.createRTSPServer 554 b, Event.createRTSPServer 8554 b]) ++
        serveEvents E server s := by
  obtain ⟨ms, hms⟩ := parseArguments_trace hacc
  rw [main_of_ok hacc, startServer_eq]
  rcases rtspPort_cases E with ⟨h1, h2⟩ | ⟨h1, h2, h3⟩ | ⟨h1, h2, h3⟩
  · rw [h2] at hp; injection hp with hp; subst hp
    simp only [h1, if_true]
    exact ⟨trivial, ms, s.proxyREGISTERRequests, by rw [hms]⟩
  · rw [h3] at hp; injection hp with hp; subst hp
    simp only [h1, h2, if_true, Bool.false_eq_true, if_false]
    exact ⟨trivial, ms, s.proxyREGISTERRequests, by rw [hms]; simp⟩
  · rw [h3] at hp; simp at hp

/-- Trace and outcome of an accepted run on which no RTSP port binds. -/
theorem main_unbound {E : Engine} {argv : List String} {s : State}
    (hacc : parseArguments E argv = .ok s) (hp : rtspPort E = none) :
    (main E argv).outcome = .exited 1 ∧
    ∃ (ms : List Message) (b : Bool), (main E argv).trace =
      ms.map Event.print ++ [Event.createRTSPServer 554 b, Event.createRTSPServer 8554 b] ++
        [Message.rtspServerFailed].map Event.print := by
  obtain ⟨ms, hms⟩ := parseArguments_trace hacc
  rw [main_of_ok hacc, startServer_eq]
  rcases rtspPort_cases E with ⟨h1, h2⟩ | ⟨h1, h2, h3⟩ | ⟨h1, h2, h3⟩
  · rw [h2] at hp; simp at hp
  · rw [h3] at hp; simp at hp
  · simp only [h1, h2, Bool.false_eq_true, if_false]
    exact ⟨trivial, ms, s.proxyREGISTERRequests, by rw [hms]; simp⟩

/-- The tokens left after the options are the end of the original argument vector. -/
theorem parseArguments_suffix {E : Engine} {argv : List String} {s : State}
    (hacc : parseArguments E argv = .ok s) : ∃ pre, argv = pre ++ s.argv.tail := by
  obtain ⟨s1, hs1, _, _, _, _, rfl⟩ := parseArguments_ok hacc
  obtain ⟨k, hk⟩ := (optionLoop_ok E _ _ _ hs1).argv_drop
  simp only [initState] at hk
  simp only
  refine ⟨argv.take (k + 1), ?_⟩
  rw [hk, List.tail_drop, List.take_append_drop]


/-! ## Claims -/

/-- C1: for every accepted argument vector whose options are followed by exactly one URL,
that URL is the last token of the vector and starts with `rtsp://`, every session the run
creates is named `proxyStream`, and when an RTSP port binds the run creates and registers
exactly one session, for that URL, under the name `proxyStream`. -/
theorem single_url_named_proxyStream (E : Engine) (argv : List String) (s : State)
    (url : String) (hacc : parseArguments E argv = .ok s) (hone : s.argv.tail = [url]) :
    (∃ pre, argv = pre ++ [url]) ∧ strncmpEq url "rtsp://" 7 = true ∧
    (∀ n ∈ sessionNames (main E argv).trace, n = "proxyStream") ∧
    ∀ server, rtspPort E = some server →
      sessionCalls (main E argv).trace =
        [.createNewSession server url "proxyStream" s.username s.password
            s.tunnelOverHTTPPortNum s.verbosityLevel,
          .addServerMediaSession server "proxyStream"] := by
  have hargc : s.argc = 2 := by
    have := congrArg List.length hone
    simp only [List.length_tail, List.length_singleton] at this
    unfold State.argc; omega
  have hcalls : ∀ server, rtspPort E = some server →
      sessionCalls (main E argv).trace =
        [.createNewSession server url "proxyStream" s.username s.password
            s.tunnelOverHTTPPortNum s.verbosityLevel,
          .addServerMediaSession server "proxyStream"] := by
    intro server hp
    obtain ⟨_, ms, b, htr⟩ := main_bound hacc hp
    rw [htr]
    simp only [sessionCalls_append, sessionCalls_prints, (serveEvents_obs E server s).1, hone,
      hargc, sessionCallsFor, streamName]
    split_ifs <;> simp [sessionCalls]
  refine ⟨?_, ?_, ?_, hcalls⟩
  · rw [← hone]; exact parseArguments_suffix hacc
  · obtain ⟨s1, _, _, _, hurls, _, rfl⟩ := parseArguments_ok hacc
    exact hurls url (by simp only at hone; rw [hone]; simp)
  · intro n hn
    rcases h : rtspPort E with _ | server
    · obtain ⟨_, ms, b, htr⟩ := main_unbound hacc h
      rw [htr] at hn
      simp [sessionNames] at hn
    · rw [sessionNames_eq_pairs] at hn
      obtain ⟨_, ms, b, htr⟩ := main_bound hacc h
      rw [htr] at hn
      simp only [sessionPairs_append, sessionPairs_prints, (serveEvents_obs E server s).2.1,
        hone, hargc] at hn
      split_ifs at hn <;> simp [sessionPairs, streamName] at hn <;> exact hn

/-- C1, at the argument vector `ownprox rtsp://host/stream` with port 554 free. -/
theorem single_url_named_proxyStream_witness :
    sessionCalls (main (engineWith [554] []) ["ownprox", "rtsp://host/stream"]).trace =
      [.createNewSession 554 "rtsp://host/stream" "proxyStream" none none 0 0,
        .addServerMediaSession 554 "proxyStream"] :=
  (single_url_named_proxyStream (engineWith [554] []) ["ownprox", "rtsp://host/stream"]
    { progName := some "ownprox", argv := ["ownprox", "rtsp://host/stream"],
      trace := [.print .banner] } "rtsp://host/stream" rfl rfl).2.2.2 554
    (by decide)

/-- C2: for every accepted argument vector whose options are followed by N > 1 URLs, those
URLs are the last N tokens of the vector, the stream names of the run are pairwise distinct,
and when an RTSP port binds the sessions are created one per URL, in order, the k-th URL
(counted from 1 among the URLs) under the name `proxyStream-k`. -/
theorem multi_url_names_indexed (E : Engine) (argv : List String) (s : State)
    (urls : List String) (hacc : parseArguments E argv = .ok s) (hurls : s.argv.tail = urls)
    (hmany : 1 < urls.length) :
    (∃ pre, argv = pre ++ urls) ∧
    (sessionNames (main E argv).trace).Nodup ∧
    ∀ server, rtspPort E = some server →
      sessionPairs (main E argv).trace =
        urls.zip ((List.range' 1 urls.length).map fun k => "proxyStream-" ++ toString k) := by
  have hargc : s.argc ≠ 2 := by
    have := congrArg List.length hurls
    simp only [List.length_tail] at this
    unfold State.argc; omega
  have hname : streamName s.argc = fun k => "proxyStream-" ++ toString k := by
    funext k; simp [streamName, hargc, sprintf_d]
  have hpairs : ∀ server, rtspPort E = some server →
      sessionPairs (main E argv).trace =
        urls.zip ((List.range' 1 urls.length).map fun k => "proxyStream-" ++ toString k) := by
    intro server hp
    obtain ⟨_, ms, b, htr⟩ := main_bound hacc hp
    rw [htr]
    simp only [sessionPairs_append, sessionPairs_prints, (serveEvents_obs E server s).2.1, hurls,
      hname]
    split_ifs <;> simp [sessionPairs]
  refine ⟨?_, ?_, hpairs⟩
  · rw [← hurls]; exact parseArguments_suffix hacc
  · rcases h : rtspPort E with _ | server
    · obtain ⟨_, ms, b, htr⟩ := main_unbound hacc h
      rw [htr]
      simp only [sessionNames_append, sessionNames_prints]
      simp [sessionNames]
    · rw [sessionNames_eq_pairs, hpairs server h, List.map_snd_zip _ _ (by simp), ← hname]
      exact (List.nodup_range' 1 urls.length).map (streamName_injective s.argc hargc)

/-- C2, at two URLs after `-v`, with only port 8554 free. -/
theorem multi_url_names_indexed_witness :
    sessionPairs (main (engineWith [8554] []) ["ownprox", "-v", "rtsp://a/1", "rtsp://b/2"]).trace =
      [("rtsp://a/1", "proxyStream-1"), ("rtsp://b/2", "proxyStream-2")] :=
  (multi_url_names_indexed (engineWith [8554] []) ["ownprox", "-v", "rtsp://a/1", "rtsp://b/2"]
    { progName := some "ownprox", verbosityLevel := 1, argv := ["-v", "rtsp://a/1", "rtsp://b/2"],
      trace := [.print .banner] } ["rtsp://a/1", "rtsp://b/2"] rfl rfl (by decide)).2.2 8554 rfl

/-- C3: for every accepted argument vector and every bind oracle, the first RTSP server
creation is on port 554; if it succeeds no other port is tried and every later call is made on
the server of port 554; if it fails port 8554 is tried next and nothing else, and on success
every later call is made on the server of port 8554; the run ends in `exit(1)` exactly when both
attempts fail. -/
theorem rtsp_bootstrap_order (E : Engine) (argv : List String) (s : State)
    (hacc : parseArguments E argv = .ok s) :
    (E.createRTSPServer 554 = true →
      rtspAttempts (main E argv).trace = [554] ∧
      serversUsed (main E argv).trace ≠ [] ∧ ∀ p ∈ serversUsed (main E argv).trace, p = 554) ∧
    (E.createRTSPServer 554 = false →
      rtspAttempts (main E argv).trace = [554, 8554] ∧
      (E.createRTSPServer 8554 = true →
        serversUsed (main E argv).trace ≠ [] ∧
        ∀ p ∈ serversUsed (main E argv).trace, p = 8554)) ∧
    ((main E argv).outcome = .exited 1 ↔
      E.createRTSPServer 554 = false ∧ E.createRTSPServer 8554 = false) := by
  have bound : ∀ server, rtspPort E = some server →
      rtspAttempts (main E argv).trace = (if server = 554 then [554] else [554, 8554]) ∧
      serversUsed (main E argv).trace ≠ [] ∧
      (∀ p ∈ serversUsed (main E argv).trace, p = server) ∧
      (main E argv).outcome = .eventLoop := by
    intro server hp
    obtain ⟨hout, ms, b, htr⟩ := main_bound hacc hp
    obtain ⟨_, _, h3, h4, h5⟩ := serveEvents_obs E server s
    rw [htr]
    refine ⟨?_, ?_, ?_, hout⟩
    · simp only [rtspAttempts_append, rtspAttempts_prints, h3]
      split_ifs <;> simp [rtspAttempts]
    · simp only [serversUsed_append, serversUsed_prints]
      split_ifs <;> simpa [serversUsed] using h5
    · intro p hp
      simp only [serversUsed_append, serversUsed_prints, List.nil_append, List.mem_append] at hp
      rcases hp with hp | hp
      · split_ifs at hp <;> simp [serversUsed] at hp
      · exact h4 p hp
  rcases rtspPort_cases E with ⟨h1, h2⟩ | ⟨h1, h2, h3⟩ | ⟨h1, h2, h3⟩
  · obtain ⟨a, b, c, d⟩ := bound 554 h2
    refine ⟨fun _ => ⟨by simpa using a, b, c⟩, ?_, ?_⟩
    · intro h; rw [h1] at h; cases h
    · rw [d, h1]; simp
  · obtain ⟨a, b, c, d⟩ := bound 8554 h3
    refine ⟨?_, fun _ => ⟨by simpa using a, fun _ => ⟨b, c⟩⟩, ?_⟩
    · intro h; rw [h1] at h; cases h
    · rw [d, h2]; simp
  · obtain ⟨hout, ms, b, htr⟩ := main_unbound hacc h3
    refine ⟨?_, fun _ => ⟨?_, ?_⟩, ?_⟩
    · intro h; rw [h1] at h; cases h
    · rw [htr]; simp [rtspAttempts]
    · intro h; rw [h2] at h; cases h
    · rw [hout]; simp [h1, h2]

/-- C3, at one URL with port 554 taken and port 8554 free. -/
theorem rtsp_bootstrap_order_witness :
    rtspAttempts (main (engineWith [8554] [80]) ["ownprox", "rtsp://host/stream"]).trace =
      [554, 8554] :=
  ((rtsp_bootstrap_order (engineWith [8554] [80]) ["ownprox", "rtsp://host/stream"]
    { progName := some "ownprox", argv := ["ownprox", "rtsp://host/stream"],
      trace := [.print .banner] } rfl).2.1 rfl).1

theorem optionStep_engine {E E' : Engine} (h : E'.our_inet_addr = E.our_inet_addr) (s : State) :
    optionStep E' s = optionStep E s := by
  unfold optionStep caseB
  rw [h]

theorem optionLoop_engine {E E' : Engine} (h : E'.our_inet_addr = E.our_inet_addr) :
    ∀ (n : Nat) (s : State), optionLoop E' n s = optionLoop E n s := by
  intro n
  induction n with
  | zero => intro s; rfl
  | succ n ih =>
    intro s
    simp only [optionLoop, optionStep_engine h, ih]

/-- The configuration resolver consults the engine only through `our_inet_addr`. -/
theorem parseArguments_engine {E E' : Engine} (h : E'.our_inet_addr = E.our_inet_addr)
    (argv : List String) : parseArguments E' argv = parseArguments E argv := by
  unfold parseArguments parseOptions
  rw [optionLoop_engine h]

theorem rtspPort_engine {E E' : Engine} (h : E'.createRTSPServer = E.createRTSPServer) :
    rtspPort E' = rtspPort E := by
  unfold rtspPort; rw [h]

theorem serveEvents_last (E : Engine) (server : Nat) (s : State) (pre : List Event) :
    (pre ++ serveEvents E server s).getLast? = some .doEventLoop := by
  unfold serveEvents
  simp [← List.append_assoc]

/-- C4: for every accepted argument vector and every bind oracle under which an RTSP port
binds, the run in which tunnelling fails on ports 80, 8000 and 8080 does not exit, ends by
entering the event loop, and makes exactly the session calls (creation with URL, name,
credentials, transport value and verbosity, then registration) of any run that differs only in
the answers to the tunnelling attempts. -/
theorem tunnel_failure_not_fatal (E E' : Engine) (argv : List String) (s : State) (server : Nat)
    (hinet : E'.our_inet_addr = E.our_inet_addr)
    (hrtsp : E'.createRTSPServer = E.createRTSPServer)
    (hfail : E.setUpTunnelingOverHTTP 80 = false ∧ E.setUpTunnelingOverHTTP 8000 = false ∧
      E.setUpTunnelingOverHTTP 8080 = false)
    (hacc : parseArguments E argv = .ok s) (hbind : rtspPort E = some server) :
    (main E argv).outcome = .eventLoop ∧
    (main E argv).trace.getLast? = some .doEventLoop ∧
    httpAttempts (main E argv).trace = [80, 8000, 8080] ∧
    sessionCalls (main E argv).trace =
      sessionCallsFor server s.argc s.username s.password s.tunnelOverHTTPPortNum
        s.verbosityLevel 1 s.argv.tail ∧
    sessionCalls (main E' argv).trace = sessionCalls (main E argv).trace := by
  have hacc' : parseArguments E' argv = .ok s := by rw [parseArguments_engine hinet]; exact hacc
  have hbind' : rtspPort E' = some server := by rw [rtspPort_engine hrtsp]; exact hbind
  obtain ⟨hout, ms, b, htr⟩ := main_bound hacc hbind
  obtain ⟨_, ms', b', htr'⟩ := main_bound hacc' hbind'
  have calls : ∀ (F : Engine) (ms : List Message) (b : Bool),
      sessionCalls (ms.map Event.print ++
        (if server = 554 then [Event.createRTSPServer 554 b]
          else [Event.createRTSPServer 554 b, Event.createRTSPServer 8554 b]) ++
        serveEvents F server s) =
      sessionCallsFor server s.argc s.username s.password s.tunnelOverHTTPPortNum
        s.verbosityLevel 1 s.argv.tail := by
    intro F ms b
    simp only [sessionCalls_append, sessionCalls_prints, (serveEvents_obs F server s).1]
    split_ifs <;> simp [sessionCalls]
  refine ⟨hout, ?_, ?_, ?_, ?_⟩
  · rw [htr]; exact serveEvents_last E server s _
  · rw [htr]
    simp only [httpAttempts_append, httpAttempts_prints, serveEvents, httpAttempts_proxyEvents,
      tunnelEvents, hfail.1, hfail.2.1, hfail.2.2, Bool.false_eq_true, if_false]
    split_ifs <;> simp [httpAttempts]
  · rw [htr]; exact calls E ms b
  · rw [htr, htr', calls E ms b, calls E' ms' b']

/-- C4, at two URLs with credentials: ports 80, 8000 and 8080 all taken against port 8000
free. -/
theorem tunnel_failure_not_fatal_witness :
    (main (engineWith [554] []) ["ownprox", "-u", "me", "pw", "rtsp://a/1", "rtsp://b/2"]).outcome
        = .eventLoop ∧
    sessionCalls (main (engineWith [554] [8000])
        ["ownprox", "-u", "me", "pw", "rtsp://a/1", "rtsp://b/2"]).trace =
      sessionCalls (main (engineWith [554] [])
        ["ownprox", "-u", "me", "pw", "rtsp://a/1", "rtsp://b/2"]).trace :=
  have h := tunnel_failure_not_fatal (engineWith [554] []) (engineWith [554] [8000])
    ["ownprox", "-u", "me", "pw", "rtsp://a/1", "rtsp://b/2"]
    { progName := some "ownprox", username := some "me", password := some "pw",
      argv := ["pw", "rtsp://a/1", "rtsp://b/2"], trace := [.print .banner] } 554
    rfl rfl (by decide) rfl rfl
  ⟨h.1, h.2.2.2.2⟩

/-! ## Lemmas: option groups in the spelling of the usage text -/

theorem usage_eq_of {s s' : State} (h1 : s'.trace = s.trace) (h2 : s'.progName = s.progName) :
    usage s' = usage s := by
  simp [usage, h1, h2]

/-- One pass of the loop over an option group: the group is consumed whole and its effect
applied, or `usage()` is called. -/
theorem parseOptions_group (E : Engine) (o : Opt) (s : State) (a0 : String)
    (rest : List String) (h : s.argv = a0 :: (o.tokens ++ rest)) :
    parseOptions E s =
      if o.accepted rest then
        parseOptions E { o.apply E s with argv := o.tokens.getLastD a0 :: rest }
      else .error (usage s) := by
  have h1 : 1 < s.argc := by
    unfold State.argc; rw [h]; cases o <;> simp [Opt.tokens]
  rw [parseOptions_step E s h1]
  cases o with
  | v =>
    have e : optionStep E s = .next { s with verbosityLevel := 1, argv := "-v" :: rest } := by
      simp [optionStep, h, Opt.tokens, charAt, State.shift]
    rw [e]; simp [Opt.accepted, Opt.apply, Opt.tokens]
  | V =>
    have e : optionStep E s = .next { s with verbosityLevel := 2, argv := "-V" :: rest } := by
      simp [optionStep, h, Opt.tokens, charAt, State.shift]
    rw [e]; simp [Opt.accepted, Opt.apply, Opt.tokens]
  | t =>
    have e : optionStep E s = .next { s with streamRTPOverTCP := true, argv := "-t" :: rest } := by
      simp [optionStep, h, Opt.tokens, charAt, State.shift]
    rw [e]; simp [Opt.accepted, Opt.apply, Opt.tokens]
  | R =>
    have e : optionStep E s =
        .next { s with proxyREGISTERRequests := true, argv := "-R" :: rest } := by
      simp [optionStep, h, Opt.tokens, charAt, State.shift]
    rw [e]; simp [Opt.accepted, Opt.apply, Opt.tokens]
  | T port =>
    have e : optionStep E s = caseT s := by
      simp [optionStep, h, Opt.tokens, charAt]
    rw [e]
    unfold caseT
    have h3 : (3 < s.argc) = (rest ≠ []) := by
      unfold State.argc; rw [h]; cases rest <;> simp [Opt.tokens]
    have h2 : s.argv[2]? = some port := by rw [h]; simp [Opt.tokens]
    simp only [h3, h2]
    cases rest with
    | nil => simp [Opt.accepted]
    | cons r rest =>
      by_cases hc : charAt port 0 = '-'
      · simp [Opt.accepted, hc]
      · cases hp : sscanf_hu port with
        | none => simp [Opt.accepted, hc, hp]
        | some v =>
          by_cases hv : 0 < v
          · simp [Opt.accepted, hc, hp, hv, State.shift, h, Opt.tokens, Opt.apply]
          · simp [Opt.accepted, hc, hp, hv]
            exact usage_eq_of rfl rfl
  | u n p =>
    have e : optionStep E s =
        .next { s with username := some n, password := some p, argv := p :: rest } := by
      simp [optionStep, caseU, h, Opt.tokens, charAt, State.shift, State.argc]
    rw [e]; simp [Opt.accepted, Opt.apply, Opt.tokens]
  | b ip =>
    have e : optionStep E s = caseB E s := by
      simp [optionStep, h, Opt.tokens, charAt]
    rw [e]
    unfold caseB
    have h3 : (3 < s.argc) = (rest ≠ []) := by
      unfold State.argc; rw [h]; cases rest <;> simp [Opt.tokens]
    have h2 : s.argv[2]? = some ip := by rw [h]; simp [Opt.tokens]
    simp only [h3, h2]
    cases rest with
    | nil => simp [Opt.accepted]
    | cons r rest =>
      by_cases hc : charAt ip 0 = '-'
      · simp [Opt.accepted, hc]
      · simp [Opt.accepted, hc, State.shift, State.emit, h, Opt.tokens, Opt.apply]

theorem Opt.apply_argv (E : Engine) (o : Opt) (s : State) (l : List String) :
    o.apply E { s with argv := l } = { o.apply E s with argv := l } := by
  cases o <;> rfl

theorem applyOpts_argv (E : Engine) : ∀ (opts : List Opt) (s : State) (l : List String),
    applyOpts E opts { s with argv := l } = { applyOpts E opts s with argv := l } := by
  intro opts
  induction opts with
  | nil => intro s l; rfl
  | cons o opts ih =>
    intro s l
    simp only [applyOpts, List.foldl_cons] at ih ⊢
    rw [Opt.apply_argv, ih]

theorem getLastD_append (l1 l2 : List String) (a : String) :
    (l1 ++ l2).getLastD a = l2.getLastD (l1.getLastD a) := by
  induction l1 generalizing a with
  | nil => rfl
  | cons x l1 ih =>
    cases l2 with
    | nil => simp
    | cons y l2 =>
      have := ih x
      simp only [List.cons_append, List.getLastD_cons] at this ⊢
      rw [this]

theorem optTokens_cons (o : Opt) (opts : List Opt) :
    optTokens (o :: opts) = o.tokens ++ optTokens opts := by
  simp [optTokens]

/-- The loop over a sequence of option groups: all of them are consumed and their effects
applied in order, or `usage()` is called. -/
theorem parseOptions_groups (E : Engine) : ∀ (opts : List Opt) (s : State) (a0 : String)
    (rest : List String), s.argv = a0 :: (optTokens opts ++ rest) →
    if optsAccepted opts rest then
      parseOptions E s =
        parseOptions E { applyOpts E opts s with argv := (optTokens opts).getLastD a0 :: rest }
    else ∃ r, parseOptions E s = .error r := by
  intro opts
  induction opts with
  | nil =>
    intro s a0 rest h
    simp only [optTokens, List.flatMap_nil, List.nil_append] at h
    simp only [optsAccepted, if_true, applyOpts, List.foldl_nil, optTokens, List.flatMap_nil,
      List.getLastD_nil, ← h]
  | cons o opts ih =>
    intro s a0 rest h
    rw [optTokens_cons, List.append_assoc] at h
    have hg := parseOptions_group E o s a0 (optTokens opts ++ rest) h
    simp only [optsAccepted]
    by_cases ha : o.accepted (optTokens opts ++ rest) = true
    · rw [if_pos ha] at hg
      have := ih { o.apply E s with argv := o.tokens.getLastD a0 :: (optTokens opts ++ rest) }
        (o.tokens.getLastD a0) rest rfl
      simp only [ha, Bool.true_and]
      split_ifs at this ⊢ with hacc
      · rw [hg, this, optTokens_cons, getLastD_append]
        congr 1
        have e := applyOpts_argv E opts (o.apply E s)
          (o.tokens.getLastD a0 :: (optTokens opts ++ rest))
        simp only [applyOpts, List.foldl_cons] at e ⊢
        rw [e]
      · obtain ⟨r, hr⟩ := this
        exact ⟨r, by rw [hg, hr]⟩
    · rw [if_neg ha] at hg
      simp only [ha, Bool.false_and, Bool.false_eq_true, if_false]
      exact ⟨_, hg⟩

theorem applyOpts_cons (E : Engine) (o : Opt) (opts : List Opt) (s : State) :
    applyOpts E (o :: opts) s = applyOpts E opts (o.apply E s) := rfl

theorem applyOpts_tcp (E : Engine) : ∀ (opts : List Opt) (s : State),
    ((applyOpts E opts s).streamRTPOverTCP = true ↔
      s.streamRTPOverTCP = true ∨ Opt.t ∈ opts) := by
  intro opts
  induction opts with
  | nil => intro s; simp [applyOpts]
  | cons o opts ih =>
    intro s
    rw [applyOpts_cons, ih]
    cases o <;> simp [Opt.apply, State.emit]

theorem applyOpts_register (E : Engine) : ∀ (opts : List Opt) (s : State),
    ((applyOpts E opts s).proxyREGISTERRequests = true ↔
      s.proxyREGISTERRequests = true ∨ Opt.R ∈ opts) := by
  intro opts
  induction opts with
  | nil => intro s; simp [applyOpts]
  | cons o opts ih =>
    intro s
    rw [applyOpts_cons, ih]
    cases o <;> simp [Opt.apply, State.emit]

theorem applyOpts_tunnel (E : Engine) : ∀ (opts : List Opt) (rest : List String) (s : State),
    optsAccepted opts rest = true →
    (0 < (applyOpts E opts s).tunnelOverHTTPPortNum ↔
      0 < s.tunnelOverHTTPPortNum ∨ ∃ p, Opt.T p ∈ opts) := by
  intro opts
  induction opts with
  | nil => intro rest s _; simp [applyOpts]
  | cons o opts ih =>
    intro rest s hacc
    simp only [optsAccepted, Bool.and_eq_true] at hacc
    rw [applyOpts_cons, ih rest _ hacc.2]
    cases o with
    | T port =>
      have hp : 0 < (sscanf_hu port).getD 0 := by
        have := hacc.1
        simp only [Opt.accepted, Bool.and_eq_true, decide_eq_true_eq] at this
        exact this.2
      simp [Opt.apply, hp]
    | _ => simp [Opt.apply, State.emit]

theorem applyOpts_argc (E : Engine) : ∀ (opts : List Opt) (s : State),
    (applyOpts E opts s).argv = s.argv := by
  intro opts
  induction opts with
  | nil => intro s; rfl
  | cons o opts ih =>
    intro s
    rw [applyOpts_cons, ih]
    cases o <;> rfl

theorem optTokens_eq_nil {opts : List Opt} : optTokens opts = [] ↔ opts = [] := by
  cases opts with
  | nil => simp [optTokens]
  | cons o opts => cases o <;> simp [optTokens, Opt.tokens]

/-! ## Lemmas: from the loop to the run -/

theorem usagePath_obs {r : Run} (h : UsagePath r) :
    rtspAttempts r.trace = [] ∧ httpAttempts r.trace = [] ∧ sessionCalls r.trace = [] := by
  obtain ⟨_, ms, p, htr⟩ := h
  rw [htr]
  exact ⟨rtspAttempts_prints _, httpAttempts_prints _, sessionCalls_prints _⟩

theorem parseArguments_total (E : Engine) (argv : List String) :
    (∃ s, parseArguments E argv = .ok s) ∨ ∃ r, parseArguments E argv = .error r := by
  cases h : parseArguments E argv with
  | ok s => exact Or.inl ⟨s, rfl⟩
  | error r => exact Or.inr ⟨r, rfl⟩

/-- A vector that is not accepted ends on the usage path without touching the engine. -/
theorem main_rejected {E : Engine} {argv : List String}
    (h : ∀ s, parseArguments E argv ≠ .ok s) :
    UsagePath (main E argv) ∧ rtspAttempts (main E argv).trace = [] ∧
      httpAttempts (main E argv).trace = [] ∧ sessionCalls (main E argv).trace = [] := by
  rcases parseArguments_total E argv with ⟨s, hs⟩ | ⟨r, hr⟩
  · exact absurd hs (h s)
  · rw [main_of_error hr]
    exact ⟨parseArguments_error hr, usagePath_obs (parseArguments_error hr)⟩

/-- What `main` does with the state in which the option loop ended. -/
theorem parseArguments_of_options {E : Engine} {argv : List String} {s1 : State}
    (hlen : 2 ≤ argv.length) (hs1 : parseOptions E (initState argv) = .ok s1) :
    parseArguments E argv =
      if s1.argc < 2 ∧ s1.proxyREGISTERRequests = false then .error (usage s1)
      else
        match checkURLs (s1.argc - 1) 1 s1 with
        | .error r => .error r
        | .ok s => checkTransport s := by
  unfold parseArguments
  have : ¬ (initState argv).argc < 2 := by simp [initState, State.argc]; omega
  rw [if_neg this, hs1]

/-- C5: for every argument vector made of option groups among which both `-t` and a `-T`
group occur, in any order and with any other groups before, between and after them and any
tokens after the groups, the run takes the usage path with exit status 1 and never calls
`createRTSPServer` or `setUpTunnelingOverHTTP`. -/
theorem tcp_and_tunnel_rejected (E : Engine) (prog : String) (opts : List Opt)
    (rest : List String) (port : String) (ht : Opt.t ∈ opts) (hT : Opt.T port ∈ opts) :
    UsagePath (main E (prog :: (optTokens opts ++ rest))) ∧
    rtspAttempts (main E (prog :: (optTokens opts ++ rest))).trace = [] ∧
    httpAttempts (main E (prog :: (optTokens opts ++ rest))).trace = [] := by
  have key : ∀ s, parseArguments E (prog :: (optTokens opts ++ rest)) ≠ .ok s := by
    intro s hs
    obtain ⟨s1, hs1, _, _, _, hboth, _⟩ := parseArguments_ok hs
    have hP := parseOptions_groups E opts (initState (prog :: (optTokens opts ++ rest))) prog
      rest rfl
    split_ifs at hP with hacc
    · rw [hP] at hs1
      have hinv := optionLoop_ok E _ _ _ hs1
      apply hboth
      constructor
      · apply hinv.tcp_mono
        exact (applyOpts_tcp E opts _).2 (Or.inr ht)
      · apply hinv.tunnel_mono
        exact (applyOpts_tunnel E opts rest _ hacc).2 (Or.inr ⟨port, hT⟩)
    · obtain ⟨r, hr⟩ := hP
      rw [hr] at hs1
      cases hs1
  obtain ⟨h1, h2, h3, _⟩ := main_rejected key
  exact ⟨h1, h2, h3⟩

/-- C5, at `-T 8080 -v -t` followed by a URL. -/
theorem tcp_and_tunnel_rejected_witness :
    UsagePath (main (engineWith [554] [80])
      ["ownprox", "-T", "8080", "-v", "-t", "rtsp://host/stream"]) :=
  (tcp_and_tunnel_rejected (engineWith [554] [80]) "ownprox" [.T "8080", .v, .t]
    ["rtsp://host/stream"] "8080" (by decide) (by decide)).1

theorem initState_fields (argv : List String) :
    (initState argv).streamRTPOverTCP = false ∧ (initState argv).tunnelOverHTTPPortNum = 0 ∧
    (initState argv).proxyREGISTERRequests = false ∧ (initState argv).username = none ∧
    (initState argv).password = none ∧ (initState argv).argv = argv :=
  ⟨rfl, rfl, rfl, rfl, rfl, rfl⟩

/-- C6: for every argument vector made of option groups only, all of which the option loop
consumes, the configuration is accepted exactly when `-R` is among the groups and `-t` and `-T`
are not both among them; and when it is accepted and an RTSP port binds, the run makes no
session call and ends by entering the event loop. -/
theorem register_mode_without_urls (E : Engine) (prog : String) (opts : List Opt) (s : State)
    (hloop : parseOptions E (initState (prog :: optTokens opts)) = .ok s) :
    ((∃ s', parseArguments E (prog :: optTokens opts) = .ok s') ↔
      (Opt.R ∈ opts ∧ ¬ (Opt.t ∈ opts ∧ ∃ p, Opt.T p ∈ opts))) ∧
    ∀ s' server, parseArguments E (prog :: optTokens opts) = .ok s' → rtspPort E = some server →
      sessionCalls (main E (prog :: optTokens opts)).trace = [] ∧
      (main E (prog :: optTokens opts)).outcome = .eventLoop ∧
      (main E (prog :: optTokens opts)).trace.getLast? = some .doEventLoop := by
  have hP := parseOptions_groups E opts (initState (prog :: optTokens opts)) prog [] (by simp [initState])
  split_ifs at hP with hacc
  swap
  · obtain ⟨r, hr⟩ := hP
    rw [hr] at hloop
    cases hloop
  have hs := (hloop.symm.trans hP).trans (parseOptions_done E _ (by simp [State.argc]))
  injection hs with hs
  have hargv : s.argv = [(optTokens opts).getLastD prog] := by rw [hs]
  have hargc : s.argc = 1 := by unfold State.argc; rw [hargv]; rfl
  have hreg : s.proxyREGISTERRequests = true ↔ Opt.R ∈ opts := by
    rw [hs]; simpa [initState] using applyOpts_register E opts (initState (prog :: optTokens opts))
  have htcp : s.streamRTPOverTCP = true ↔ Opt.t ∈ opts := by
    rw [hs]; simpa [initState] using applyOpts_tcp E opts (initState (prog :: optTokens opts))
  have htun : 0 < s.tunnelOverHTTPPortNum ↔ ∃ p, Opt.T p ∈ opts := by
    rw [hs]
    simpa [initState] using applyOpts_tunnel E opts [] (initState (prog :: optTokens opts)) hacc
  constructor
  · constructor
    · rintro ⟨s', hs'⟩
      obtain ⟨s1, hs1, _, hurl, _, hboth, _⟩ := parseArguments_ok hs'
      rw [hloop] at hs1
      injection hs1 with hs1
      subst hs1
      refine ⟨hreg.1 (hurl.elim (fun h => by omega) id), ?_⟩
      rintro ⟨h1, h2⟩
      exact hboth ⟨htcp.2 h1, htun.2 h2⟩
    · rintro ⟨hR, hnot⟩
      have hne : opts ≠ [] := by rintro rfl; simp at hR
      have hlen : 2 ≤ (prog :: optTokens opts).length := by
        have : optTokens opts ≠ [] := fun h => hne (optTokens_eq_nil.1 h)
        cases h : optTokens opts with
        | nil => exact absurd h this
        | cons a l => simp
      have h1 : ¬ (s.argc < 2 ∧ s.proxyREGISTERRequests = false) := by
        rw [hreg.2 hR]; simp
      rw [parseArguments_of_options hlen hloop, if_neg h1, hargc]
      simp only [Nat.sub_self, checkURLs]
      unfold checkTransport
      by_cases ht : s.streamRTPOverTCP = true
      · have : ¬ 0 < s.tunnelOverHTTPPortNum := fun h => hnot ⟨htcp.1 ht, htun.1 h⟩
        simp [ht, this]
      · simp [ht]
  · intro s' server hs' hp
    obtain ⟨s1, hs1, _, _, _, _, hs'eq⟩ := parseArguments_ok hs'
    rw [hloop] at hs1
    injection hs1 with hs1
    subst hs1
    obtain ⟨hout, ms, b, htr⟩ := main_bound hs' hp
    have htail : s'.argv.tail = [] := by rw [hs'eq]; simp [hargv]
    refine ⟨?_, hout, ?_⟩
    · rw [htr]
      simp only [sessionCalls_append, sessionCalls_prints, (serveEvents_obs E server s').1, htail,
        sessionCallsFor]
      split_ifs <;> simp [sessionCalls]
    · rw [htr]; exact serveEvents_last E server s' _

/-- C6, at the argument vector `ownprox -R`: accepted. -/
theorem register_mode_without_urls_witness :
    ∃ s', parseArguments (engineWith [554] []) ["ownprox", "-R"] = .ok s' :=
  (register_mode_without_urls (engineWith [554] []) "ownprox" [.R]
    { progName := some "ownprox", proxyREGISTERRequests := true, argv := ["-R"],
      trace := [.print .banner] } rfl).1.2 ⟨by decide, fun h => absurd h.1 (by decide)⟩

/-- C7: for every argument vector, if the option loop ends and one of the tokens it leaves
does not start with the seven characters `rtsp://`, the run takes the usage path with exit
status 1 and makes no engine call, whatever options were consumed before. -/
theorem non_rtsp_token_rejected (E : Engine) (argv : List String) (s : State) (t : String)
    (hloop : parseOptions E (initState argv) = .ok s) (ht : t ∈ s.argv.tail)
    (hbad : strncmpEq t "rtsp://" 7 = false) :
    UsagePath (main E argv) ∧ rtspAttempts (main E argv).trace = [] ∧
      httpAttempts (main E argv).trace = [] ∧ sessionCalls (main E argv).trace = [] := by
  apply main_rejected
  intro s' hs'
  obtain ⟨s1, hs1, _, _, hurls, _, _⟩ := parseArguments_ok hs'
  rw [hloop] at hs1
  injection hs1 with hs1
  subst hs1
  rw [hurls t ht] at hbad
  cases hbad

/-- C7, at `-R -v` followed by a URL and a token with another scheme. -/
theorem non_rtsp_token_rejected_witness :
    UsagePath (main (engineWith [554] [80])
      ["ownprox", "-R", "-v", "rtsp://host/stream", "http://host/stream"]) :=
  (non_rtsp_token_rejected (engineWith [554] [80])
    ["ownprox", "-R", "-v", "rtsp://host/stream", "http://host/stream"]
    { progName := some "ownprox", verbosityLevel := 1, proxyREGISTERRequests := true,
      argv := ["-v", "rtsp://host/stream", "http://host/stream"], trace := [.print .banner] }
    "http://host/stream" rfl (by decide) (by decide)).1

theorem optTokens_append (l1 l2 : List Opt) :
    optTokens (l1 ++ l2) = optTokens l1 ++ optTokens l2 := by
  simp [optTokens]

theorem optsAccepted_append : ∀ (l1 l2 : List Opt) (rest : List String),
    optsAccepted (l1 ++ l2) rest =
      (optsAccepted l1 (optTokens l2 ++ rest) && optsAccepted l2 rest) := by
  intro l1
  induction l1 with
  | nil => intro l2 rest; simp [optsAccepted]
  | cons o l1 ih =>
    intro l2 rest
    rw [List.cons_append]
    simp only [optsAccepted]
    rw [ih, optTokens_append, List.append_assoc, Bool.and_assoc]

theorem parseOptions_T_last (E : Engine) (s : State) (a0 : String) (h : s.argv = [a0, "-T"]) :
    parseOptions E s = .error (usage s) := by
  rw [parseOptions_step E s (by simp [State.argc, h])]
  simp [optionStep, caseT, h, charAt, State.argc]

/-- When the loop does not finish, the vector is not accepted. -/
theorem not_accepted_of_loop_error {E : Engine} {argv : List String}
    (h : ∃ r, parseOptions E (initState argv) = .error r) :
    ∀ s, parseArguments E argv ≠ .ok s := by
  intro s hs
  obtain ⟨s1, hs1, _⟩ := parseArguments_ok hs
  obtain ⟨r, hr⟩ := h
  rw [hr] at hs1
  cases hs1

/-- C8, where the code departs from it: `-T 8080` as the last two tokens in REGISTER mode is
refused with the usage text, under every engine. -/
theorem tunnel_option_last_rejected (E : Engine) :
    main E ["ownprox", "-R", "-T", "8080"] =
      ⟨[.print .banner, .print (.usage (some "ownprox"))], .exited 1⟩ := by
  rfl

/-- Credentials as the last three tokens in REGISTER mode are accepted: `-u` tests `argc < 4`
for the two tokens it reads, where `-T` and `-b` test `argc > 3` for the one they read. -/
theorem last_credentials_accepted :
    (main (engineWith [554] []) ["ownprox", "-R", "-u", "me", "pw"]).outcome = .eventLoop := by
  decide

/-- C9 fails as stated: the token `80abc` after `-T` is accepted, with tunnel port 80. -/
theorem tunnel_option_trailing_text_accepted :
    (main (engineWith [554] []) ["ownprox", "-T", "80abc", "rtsp://host/stream"]).outcome =
        .eventLoop ∧
      sessionCalls
        (main (engineWith [554] []) ["ownprox", "-T", "80abc", "rtsp://host/stream"]).trace =
        [.createNewSession 554 "rtsp://host/stream" "proxyStream" none none 80 0,
          .addServerMediaSession 554 "proxyStream"] := by
  decide

/-- C9, amended: for every argument vector made of option groups followed by `-T`, where `-T`
is the last token, or the token after it starts with `-`, or `sscanf` with `%hu` converts
nothing from that token, or converts the value 0, the run takes the usage path with exit
status 1 and makes no engine call. -/
theorem tunnel_option_rejected (E : Engine) (prog : String) (opts : List Opt)
    (rest : List String)
    (hbad : rest = [] ∨ ∃ a tl, rest = a :: tl ∧
      (charAt a 0 = '-' ∨ sscanf_hu a = none ∨ sscanf_hu a = some 0)) :
    UsagePath (main E (prog :: (optTokens opts ++ "-T" :: rest))) ∧
    rtspAttempts (main E (prog :: (optTokens opts ++ "-T" :: rest))).trace = [] ∧
    httpAttempts (main E (prog :: (optTokens opts ++ "-T" :: rest))).trace = [] ∧
    sessionCalls (main E (prog :: (optTokens opts ++ "-T" :: rest))).trace = [] := by
  apply main_rejected
  apply not_accepted_of_loop_error
  rcases hbad with rfl | ⟨a, tl, rfl, ha⟩
  · have hP := parseOptions_groups E opts (initState (prog :: (optTokens opts ++ ["-T"]))) prog
      ["-T"] rfl
    split_ifs at hP with hacc
    · rw [hP]
      exact ⟨_, parseOptions_T_last E _ _ rfl⟩
    · exact hP
  · have hP := parseOptions_groups E (opts ++ [.T a])
      (initState (prog :: (optTokens opts ++ "-T" :: a :: tl))) prog tl
      (by simp [initState, optTokens_append, optTokens, Opt.tokens])
    have hna : optsAccepted (opts ++ [.T a]) tl = false := by
      rw [optsAccepted_append]
      have : (Opt.T a).accepted tl = false := by
        rcases ha with h | h | h <;> simp [Opt.accepted, h]
      simp [optsAccepted, optTokens, this]
    rw [hna] at hP
    simpa using hP

/-- C9 amended, at `-v -T abc` followed by a URL. -/
theorem tunnel_option_rejected_witness :
    UsagePath (main (engineWith [554] [80]) ["ownprox", "-v", "-T", "abc", "rtsp://host/stream"]) :=
  (tunnel_option_rejected (engineWith [554] [80]) "ownprox" [.v] ["abc", "rtsp://host/stream"]
    (Or.inr ⟨"abc", ["rtsp://host/stream"], rfl, Or.inr (Or.inl (by decide))⟩)).1

theorem rtsp_first_char {t : String} (h : strncmpEq t "rtsp://" 7 = true) : charAt t 0 = 'r' := by
  unfold strncmpEq at h
  unfold charAt
  cases hd : t.data with
  | nil => rw [hd] at h; revert h; decide
  | cons c l =>
    rw [hd] at h
    have h' : List.take 7 (c :: l) = List.take 7 "rtsp://".data := by simpa using h
    have h6 : (c :: l.take 6) = ['r', 't', 's', 'p', ':', '/', '/'] := by simpa using h'
    have hc : c = 'r' := (List.cons.inj h6).1
    rw [hc]
    rfl

/-- The loop stops at once in front of `rtsp://` URLs. -/
theorem parseOptions_urls (E : Engine) (s : State) (a0 : String) (urls : List String)
    (h : s.argv = a0 :: urls) (hurls : ∀ t ∈ urls, strncmpEq t "rtsp://" 7 = true) :
    parseOptions E s = .ok s := by
  cases urls with
  | nil => exact parseOptions_done E s (by simp [State.argc, h])
  | cons t tl =>
    rw [parseOptions_step E s (by simp [State.argc, h])]
    have hc := rtsp_first_char (hurls t (by simp))
    simp [optionStep, h, hc]

theorem applyOpts_append (E : Engine) (l1 l2 : List Opt) (s : State) :
    applyOpts E (l1 ++ l2) s = applyOpts E l2 (applyOpts E l1 s) := by
  simp [applyOpts, List.foldl_append]

theorem applyOpts_credentials (E : Engine) : ∀ (opts : List Opt) (s : State),
    (∀ n p, Opt.u n p ∉ opts) →
    (applyOpts E opts s).username = s.username ∧ (applyOpts E opts s).password = s.password := by
  intro opts
  induction opts with
  | nil => intro s _; exact ⟨rfl, rfl⟩
  | cons o opts ih =>
    intro s h
    rw [applyOpts_cons]
    obtain ⟨h1, h2⟩ := ih (o.apply E s) (fun n p hm => h n p (List.mem_cons_of_mem _ hm))
    rw [h1, h2]
    cases o with
    | u n p => exact absurd (List.mem_cons_self _ _) (h n p)
    | _ => exact ⟨rfl, rfl⟩

/-- The resolver on option groups followed by `rtsp://` URLs. -/
theorem parseArguments_groups_urls (E : Engine) (prog : String) (opts : List Opt)
    (urls : List String) (hurls : ∀ t ∈ urls, strncmpEq t "rtsp://" 7 = true) (s : State)
    (hs : parseArguments E (prog :: (optTokens opts ++ urls)) = .ok s) :
    optsAccepted opts urls = true ∧
    s.argv.tail = urls ∧
    s.username = (applyOpts E opts (initState (prog :: (optTokens opts ++ urls)))).username ∧
    s.password = (applyOpts E opts (initState (prog :: (optTokens opts ++ urls)))).password := by
  obtain ⟨s1, hs1, _, _, _, _, rfl⟩ := parseArguments_ok hs
  have hP := parseOptions_groups E opts (initState (prog :: (optTokens opts ++ urls))) prog urls rfl
  split_ifs at hP with hacc
  · rw [hP, parseOptions_urls E _ _ urls rfl hurls] at hs1
    injection hs1 with hs1
    subst hs1
    exact ⟨hacc, rfl, rfl, rfl⟩
  · obtain ⟨r, hr⟩ := hP
    rw [hr] at hs1
    cases hs1

@[simp] theorem sessionCredentials_append (a b : List Event) :
    sessionCredentials (a ++ b) = sessionCredentials a ++ sessionCredentials b := by
  simp [sessionCredentials]

@[simp] theorem sessionCredentials_prints (ms : List Message) :
    sessionCredentials (ms.map Event.print) = [] := by
  induction ms with
  | nil => rfl
  | cons m ms ih => simp [sessionCredentials]

theorem sessionCredentials_proxyEvents (server argc : Nat) (u p : Option String) (t v : Nat) :
    ∀ (urls : List String) (i : Nat),
      ∀ c ∈ sessionCredentials (proxyEvents server argc u p t v i urls), c = (u, p) := by
  intro urls
  induction urls with
  | nil => intro i c hc; simp [proxyEvents, sessionCredentials] at hc
  | cons url urls ih =>
    intro i c hc
    simp only [proxyEvents, sessionCredentials_append, List.mem_append] at hc
    rcases hc with hc | hc
    · simp [sessionCredentials] at hc; exact hc
    · exact ih _ c hc

theorem sessionCredentials_tunnelEvents (E : Engine) (server : Nat) :
    sessionCredentials (tunnelEvents E server) = [] := by
  unfold tunnelEvents
  split_ifs <;> simp [sessionCredentials]

/-- Every session of a run carries the credentials of the accepted configuration. -/
theorem main_credentials {E : Engine} {argv : List String} {s : State}
    (hacc : parseArguments E argv = .ok s) :
    ∀ c ∈ sessionCredentials (main E argv).trace, c = (s.username, s.password) := by
  intro c hc
  rcases h : rtspPort E with _ | server
  · obtain ⟨_, ms, b, htr⟩ := main_unbound hacc h
    rw [htr] at hc
    simp [sessionCredentials] at hc
  · obtain ⟨_, ms, b, htr⟩ := main_bound hacc h
    rw [htr] at hc
    simp only [sessionCredentials_append, sessionCredentials_prints, serveEvents,
      sessionCredentials_tunnelEvents, List.nil_append, List.append_nil, List.mem_append] at hc
    rcases hc with hc | (hc | hc) | hc
    · split_ifs at hc <;> simp [sessionCredentials] at hc
    · exact sessionCredentials_proxyEvents _ _ _ _ _ _ _ _ c hc
    · split_ifs at hc <;> simp [sessionCredentials] at hc
    · simp [sessionCredentials] at hc

theorem parseOptions_u_short (E : Engine) (s : State) (a0 : String) (rest : List String)
    (h : s.argv = a0 :: "-u" :: rest) (hlen : rest.length < 2) :
    parseOptions E s = .error (usage s) := by
  rw [parseOptions_step E s (by simp [State.argc, h])]
  have hargc : s.argc < 4 := by simp [State.argc, h]; omega
  simp [optionStep, caseU, h, charAt, hargc]

/-- C10, amended: for every argument vector made of option groups followed by `-u`: with
fewer than two tokens after `-u` the run takes the usage path; with at least two, the loop
continues from the state in which the first is the username and the second the password, at
the token after the password; and the credentials handed to every session are those of the
last `-u` group: when the groups after that `-u` contain no further `-u` and are followed by
`rtsp://` URLs, every session the run creates is handed that username and that password. -/
theorem credentials_option (E : Engine) (prog : String) (pre : List Opt) :
    (∀ rest : List String, rest.length < 2 →
      UsagePath (main E (prog :: (optTokens pre ++ "-u" :: rest)))) ∧
    (∀ (s : State) (a0 name pw : String) (rest : List String),
      s.argv = a0 :: "-u" :: name :: pw :: rest →
      parseOptions E s =
        parseOptions E
          { s with username := some name, password := some pw, argv := pw :: rest }) ∧
    (∀ (name pw : String) (post : List Opt) (urls : List String),
      (∀ n p, Opt.u n p ∉ post) → (∀ t ∈ urls, strncmpEq t "rtsp://" 7 = true) →
      ∀ c ∈ sessionCredentials
          (main E (prog :: (optTokens pre ++ "-u" :: name :: pw :: (optTokens post ++ urls)))).trace,
        c = (some name, some pw)) := by
  refine ⟨?_, ?_, ?_⟩
  · intro rest hlen
    refine (main_rejected (not_accepted_of_loop_error ?_)).1
    have hP := parseOptions_groups E pre (initState (prog :: (optTokens pre ++ "-u" :: rest))) prog
      ("-u" :: rest) rfl
    split_ifs at hP with hacc
    · rw [hP]
      exact ⟨_, parseOptions_u_short E _ _ rest rfl hlen⟩
    · exact hP
  · intro s a0 name pw rest h
    have := parseOptions_group E (.u name pw) s a0 rest (by simpa [Opt.tokens] using h)
    simpa [Opt.accepted, Opt.apply, Opt.tokens] using this
  · intro name pw post urls hnou hurls c hc
    have hargv : prog :: (optTokens pre ++ "-u" :: name :: pw :: (optTokens post ++ urls)) =
        prog :: (optTokens (pre ++ [.u name pw] ++ post) ++ urls) := by
      simp [optTokens_append, optTokens, Opt.tokens]
    rw [hargv] at hc
    rcases parseArguments_total E (prog :: (optTokens (pre ++ [.u name pw] ++ post) ++ urls))
      with ⟨s, hs⟩ | ⟨r, hr⟩
    · obtain ⟨_, _, hu, hp⟩ := parseArguments_groups_urls E prog _ urls hurls s hs
      have hc' := main_credentials hs c hc
      rw [hc', hu, hp, applyOpts_append, applyOpts_append]
      obtain ⟨h1, h2⟩ := applyOpts_credentials E post
        (applyOpts E [.u name pw] (applyOpts E pre (initState
          (prog :: (optTokens (pre ++ [.u name pw] ++ post) ++ urls))))) hnou
      rw [h1, h2]
      rfl
    · rw [main_of_error hr] at hc
      obtain ⟨_, ms, p, htr⟩ := parseArguments_error hr
      rw [htr, sessionCredentials_prints] at hc
      cases hc

/-- C10 amended, at `-v -u me` (one token after `-u`) and at `-v -u me pw -R` followed by two
URLs with port 554 free. -/
theorem credentials_option_witness :
    UsagePath (main (engineWith [554] []) ["ownprox", "-v", "-u", "me"]) ∧
    sessionCredentials (main (engineWith [554] [])
        ["ownprox", "-v", "-u", "me", "pw", "-R", "rtsp://a/1", "rtsp://b/2"]).trace =
      List.replicate 2 (some "me", some "pw") :=
  have h := credentials_option (engineWith [554] []) "ownprox" [.v]
  ⟨h.1 ["me"] (by decide),
    List.eq_replicate_iff.2 ⟨by decide,
      h.2.2 "me" "pw" [.R] ["rtsp://a/1", "rtsp://b/2"] (by simp) (by decide)⟩⟩

theorem applyOpts_tunnel_keep (E : Engine) : ∀ (opts : List Opt) (s : State),
    (∀ q, Opt.T q ∉ opts) →
    (applyOpts E opts s).tunnelOverHTTPPortNum = s.tunnelOverHTTPPortNum := by
  intro opts
  induction opts with
  | nil => intro s _; rfl
  | cons o opts ih =>
    intro s h
    rw [applyOpts_cons, ih (o.apply E s) (fun q hm => h q (List.mem_cons_of_mem _ hm))]
    cases o with
    | T q => exact absurd (List.mem_cons_self _ _) (h q)
    | _ => rfl

theorem toString_first_char (p : Nat) : charAt (toString p) 0 ≠ '-' := by
  unfold charAt
  rw [toString_data]
  have hne := toDigitsCore_ne_nil p p
  have hd := toDigitsCore_isDigit (p + 1) p
  unfold Nat.toDigits
  cases hl : Nat.toDigitsCore 10 (p + 1) p [] with
  | nil => exact absurd hl hne
  | cons c l =>
    have := (isDigit_not_special c (hd c (by rw [hl]; simp))).2.1
    simpa using this

/-- Where the tunnel option is accepted: `-T p` with `p` a decimal numeral in 1..65535 is
accepted among accepted option groups without `-t`, and the resolved tunnel port is `p`,
provided at least one token follows the port. -/
theorem tunnel_option_accepted_when_followed (E : Engine) (prog : String)
    (pre post : List Opt) (urls : List String) (p : Nat) (hp1 : 1 ≤ p) (hp2 : p ≤ 65535)
    (hfollow : optTokens post ++ urls ≠ [])
    (hpre : optsAccepted pre (optTokens (Opt.T (toString p) :: post) ++ urls) = true)
    (hpost : optsAccepted post urls = true)
    (hnot : Opt.t ∉ pre ∧ Opt.t ∉ post) (hnoT : ∀ q, Opt.T q ∉ post)
    (hurls : ∀ t ∈ urls, strncmpEq t "rtsp://" 7 = true)
    (hsome : urls ≠ [] ∨ Opt.R ∈ pre ∨ Opt.R ∈ post) :
    ∃ s, parseArguments E
        (prog :: (optTokens pre ++ "-T" :: toString p :: (optTokens post ++ urls))) = .ok s ∧
      s.tunnelOverHTTPPortNum = p := by
  have hargv : prog :: (optTokens pre ++ "-T" :: toString p :: (optTokens post ++ urls)) =
      prog :: (optTokens (pre ++ [Opt.T (toString p)] ++ post) ++ urls) := by
    simp [optTokens_append, optTokens, Opt.tokens]
  rw [hargv]
  have hscan : sscanf_hu (toString p) = some p := sscanf_hu_toString p (by omega)
  have hT : (Opt.T (toString p)).accepted (optTokens post ++ urls) = true := by
    have h0 := toString_first_char p
    cases hl : optTokens post ++ urls with
    | nil => exact absurd hl hfollow
    | cons a l => simp [Opt.accepted, hscan, h0]; omega
  have hacc : optsAccepted (pre ++ [Opt.T (toString p)] ++ post) urls = true := by
    rw [optsAccepted_append, optsAccepted_append, hpost]
    have e0 : optTokens ([] : List Opt) = [] := rfl
    simp only [optsAccepted, optTokens_cons, List.append_assoc, e0, List.append_nil,
      List.nil_append] at hpre ⊢
    simp only [hpre, hT, Bool.and_self]
  have hP := parseOptions_groups E (pre ++ [Opt.T (toString p)] ++ post)
    (initState (prog :: (optTokens (pre ++ [Opt.T (toString p)] ++ post) ++ urls))) prog urls rfl
  rw [if_pos hacc] at hP
  replace hP := hP.trans (parseOptions_urls E _ _ urls rfl hurls)
  have hlen : 2 ≤ (prog :: (optTokens (pre ++ [Opt.T (toString p)] ++ post) ++ urls)).length := by
    simp only [optTokens_append, optTokens_cons, Opt.tokens, List.length_cons, List.length_append]
    omega
  rw [parseArguments_of_options hlen hP]
  have hreg : ¬ ((1 + urls.length < 2) ∧
      (applyOpts E (pre ++ [Opt.T (toString p)] ++ post)
        (initState (prog :: (optTokens (pre ++ [Opt.T (toString p)] ++ post) ++ urls)))
        ).proxyREGISTERRequests = false) := by
    rintro ⟨h1, h2⟩
    have hu : urls = [] := by
      cases urls with
      | nil => rfl
      | cons a l => simp only [List.length_cons] at h1; omega
    have hR := (applyOpts_register E (pre ++ [Opt.T (toString p)] ++ post)
      (initState (prog :: (optTokens (pre ++ [Opt.T (toString p)] ++ post) ++ urls)))).2
      (Or.inr (by
        rcases hsome with h | h | h
        · exact absurd hu h
        · simp [h]
        · simp [h]))
    rw [hR] at h2
    cases h2
  have htcp : (applyOpts E (pre ++ [Opt.T (toString p)] ++ post)
      (initState (prog :: (optTokens (pre ++ [Opt.T (toString p)] ++ post) ++ urls)))
      ).streamRTPOverTCP = false := by
    have := (applyOpts_tcp E (pre ++ [Opt.T (toString p)] ++ post)
      (initState (prog :: (optTokens (pre ++ [Opt.T (toString p)] ++ post) ++ urls)))).not
    simp only [initState_fields, Bool.false_eq_true, false_or] at this
    have hnt : Opt.t ∉ pre ++ [Opt.T (toString p)] ++ post := by simp [hnot.1, hnot.2]
    simpa using this.2 hnt
  have htun : (applyOpts E (pre ++ [Opt.T (toString p)] ++ post)
      (initState (prog :: (optTokens (pre ++ [Opt.T (toString p)] ++ post) ++ urls)))
      ).tunnelOverHTTPPortNum = p := by
    rw [applyOpts_append, applyOpts_tunnel_keep E post _ hnoT, applyOpts_append]
    simp [applyOpts, Opt.apply, hscan]
  simp only [State.argc, List.length_cons, Nat.add_comm urls.length 1]
  rw [if_neg hreg]
  rw [checkURLs_of_all _ _ _ (by simp [State.argc]; omega) (by simpa using hurls)]
  simp only [checkTransport, htcp, Bool.false_eq_true, if_false]
  exact ⟨_, rfl, htun⟩

/-- The tunnel option at `-R -T 8080` followed by a URL. -/
theorem tunnel_option_accepted_when_followed_witness :
    ∃ s, parseArguments (engineWith [554] [])
        ["ownprox", "-R", "-T", toString 8080, "rtsp://host/stream"] = .ok s ∧
      s.tunnelOverHTTPPortNum = 8080 :=
  tunnel_option_accepted_when_followed (engineWith [554] []) "ownprox" [.R] []
    ["rtsp://host/stream"] 8080 (by decide) (by decide) (by decide) (by decide) (by decide)
    (by decide) (by simp) (by decide) (by decide)

/-- C13: for every argument vector on which the resolver calls `usage()`, the run is the
usage run: it ends in `exit(1)`, its trace holds output lines only, the last of them the
synopsis, and so it contains no `createRTSPServer` call, no `setUpTunnelingOverHTTP` call and
no session call. -/
theorem usage_path_before_any_listener (E : Engine) (argv : List String) (r : Run)
    (h : parseArguments E argv = .error r) :
    main E argv = r ∧ (main E argv).outcome = .exited 1 ∧ UsagePath (main E argv) ∧
    rtspAttempts (main E argv).trace = [] ∧ httpAttempts (main E argv).trace = [] ∧
    sessionCalls (main E argv).trace = [] := by
  have hm := main_of_error h
  have hu := parseArguments_error h
  rw [hm]
  exact ⟨rfl, hu.1, hu, usagePath_obs hu⟩

/-- C13, at `-T abc` followed by a URL. -/
theorem usage_path_before_any_listener_witness :
    (main (engineWith [554] [80]) ["ownprox", "-T", "abc", "rtsp://host/stream"]).outcome =
      .exited 1 :=
  (usage_path_before_any_listener (engineWith [554] [80])
    ["ownprox", "-T", "abc", "rtsp://host/stream"]
    ⟨[.print .banner, .print (.usage (some "ownprox"))], .exited 1⟩ rfl).2.1

/-- C19: for every URL index up to `2^31 - 1` the name `proxyStream-` followed by the decimal
numeral of the index has at most 29 characters, as has the name `proxyStream`, so the name
written at lines 218-222 fits the 30 bytes of `streamName` with its terminator. -/
theorem streamName_fits_buffer (argc i : Nat) (hi : i ≤ 2 ^ 31 - 1) :
    ("proxyStream-" ++ sprintf_d i).length ≤ 29 ∧ ("proxyStream" : String).length ≤ 29 ∧
    (streamName argc i).length + 1 ≤ 30 := by
  have hlen : (sprintf_d i).length ≤ 10 :=
    Nat.repr_length i 10 (by decide) (by norm_num at hi ⊢; omega)
  have h12 : ("proxyStream-" : String).length = 12 := by decide
  have h11 : ("proxyStream" : String).length = 11 := by decide
  refine ⟨?_, ?_, ?_⟩
  · rw [String.length_append, h12]; omega
  · rw [h11]; decide
  · unfold streamName
    split_ifs
    · rw [h11]; decide
    · rw [String.length_append, h12]; omega

/-- C19, at the largest index. -/
theorem streamName_fits_buffer_witness : (streamName 3 2147483647).length + 1 ≤ 30 :=
  (streamName_fits_buffer 3 2147483647 (by decide)).2.2

/-- C18: no run ends in a read outside the argument vector or in an option loop that did not
finish: every run ends in `exit(1)` or in the event loop, the resolver either accepts or takes
the usage path, every accepted pass through the loop body lowers `argc`, and the loop gives
the same result for every bound above `argc`. -/
theorem option_parser_reads_in_bounds (E : Engine) :
    (∀ argv, (main E argv).outcome = .exited 1 ∨ (main E argv).outcome = .eventLoop) ∧
    (∀ argv, (∃ s, parseArguments E argv = .ok s) ∨
      ∃ r, parseArguments E argv = .error r ∧ UsagePath r) ∧
    (∀ s s', optionStep E s = .next s' → s'.argc < s.argc) ∧
    (∀ n s, s.argc < n → optionLoop E n s = parseOptions E s) := by
  refine ⟨?_, ?_, ?_, ?_⟩
  · intro argv
    rcases parseArguments_total E argv with ⟨s, hs⟩ | ⟨r, hr⟩
    · rcases h : rtspPort E with _ | server
      · exact Or.inl (main_unbound hs h).1
      · exact Or.inr (main_bound hs h).1
    · rw [main_of_error hr]
      exact Or.inl (parseArguments_error hr).1
  · intro argv
    rcases parseArguments_total E argv with ⟨s, hs⟩ | ⟨r, hr⟩
    · exact Or.inl ⟨s, hs⟩
    · exact Or.inr ⟨r, hr, parseArguments_error hr⟩
  · intro s s' h
    exact (optionStep_next h).1
  · intro n s h
    exact optionLoop_fuel E n (s.argc + 1) s h (by omega)

/-- C18, at the pass over `-u me pw` with four tokens in the vector. -/
theorem option_parser_reads_in_bounds_witness :
    State.argc { username := some "me", password := some "pw", argv := ["pw"] } <
      State.argc { argv := ["ownprox", "-u", "me", "pw"] } :=
  (option_parser_reads_in_bounds (engineWith [] [])).2.2.1
    { argv := ["ownprox", "-u", "me", "pw"] }
    { username := some "me", password := some "pw", argv := ["pw"] } rfl

@[simp] theorem tunnelReports_append (a b : List Event) :
    tunnelReports (a ++ b) = tunnelReports a ++ tunnelReports b := by
  simp [tunnelReports]

/-- An accepted pass through the loop body reports nothing about tunnelling. -/
theorem optionStep_next_reports {E : Engine} {s s' : State} (h : optionStep E s = .next s') :
    tunnelReports s'.trace = tunnelReports s.trace := by
  unfold optionStep at h
  split at h
  · simp at h
  · split_ifs at h
    · simp [State.shift] at h; subst h; rfl
    · simp [State.shift] at h; subst h; rfl
    · simp [State.shift] at h; subst h; rfl
    · obtain ⟨a2, p, _, _, _, _, _, rfl⟩ := caseT_next h; rfl
    · obtain ⟨a2, a3, _, _, _, rfl⟩ := caseU_next h; rfl
    · simp [State.shift] at h; subst h; rfl
    · obtain ⟨a2, _, _, _, rfl⟩ := caseB_next h
      simp [tunnelReports]

theorem optionLoop_reports (E : Engine) : ∀ (n : Nat) (s s' : State),
    optionLoop E n s = .ok s' → tunnelReports s'.trace = tunnelReports s.trace := by
  intro n
  induction n with
  | zero => intro s s' h; simp [optionLoop] at h
  | succ n ih =>
    intro s s' h
    simp only [optionLoop] at h
    split_ifs at h with h1
    · cases hstep : optionStep E s with
      | next s1 =>
        rw [hstep] at h
        rw [ih s1 s' h, optionStep_next_reports hstep]
      | brk s1 =>
        rw [hstep] at h
        simp at h
        subst h
        rw [optionStep_brk hstep]
      | stop r => rw [hstep] at h; simp at h
    · simp at h; subst h; rfl

theorem parseArguments_reports {E : Engine} {argv : List String} {s : State}
    (h : parseArguments E argv = .ok s) : tunnelReports s.trace = [] := by
  obtain ⟨s1, hs1, _, _, _, _, rfl⟩ := parseArguments_ok h
  exact optionLoop_reports E _ _ _ hs1

theorem tunnelReports_proxyEvents (server argc : Nat) (u p : Option String) (t v : Nat) :
    ∀ (urls : List String) (i : Nat), tunnelReports (proxyEvents server argc u p t v i urls) = [] := by
  intro urls
  induction urls with
  | nil => intro i; rfl
  | cons url urls ih =>
    intro i
    simp only [proxyEvents, tunnelReports_append, ih]
    simp [tunnelReports]

/-- The trace of an accepted run on which an RTSP port binds, from the state the resolver
left. -/
theorem main_bound_trace {E : Engine} {argv : List String} {s : State} {server : Nat}
    (hacc : parseArguments E argv = .ok s) (hp : rtspPort E = some server) :
    (main E argv).trace =
      s.trace ++
        (if server = 554 then [Event.createRTSPServer 554 s.proxyREGISTERRequests]
          else [Event.createRTSPServer 554 s.proxyREGISTERRequests,
            Event.createRTSPServer 8554 s.proxyREGISTERRequests]) ++
        serveEvents E server s := by
  rw [main_of_ok hacc, startServer_eq]
  rcases rtspPort_cases E with ⟨h1, h2⟩ | ⟨h1, h2, h3⟩ | ⟨h1, h2, h3⟩
  · rw [h2] at hp; injection hp with hp; subst hp
    simp only [h1, if_true]
  · rw [h3] at hp; injection hp with hp; subst hp
    simp [h1, h2]
  · rw [h3] at hp; simp at hp

/-- C16: for every accepted argument vector and every bind oracle under which an RTSP port
binds, tunnelling is attempted on port 80, then on 8000 only if 80 failed, then on 8080 only
if 8000 failed, on no port after the first success and on no other port; the run reports
exactly once about tunnelling, the port of the first success or "not available", and it
reports "not available" exactly when all three attempts fail. -/
theorem tunnel_bootstrap_order (E : Engine) (argv : List String) (s : State) (server : Nat)
    (hacc : parseArguments E argv = .ok s) (hbind : rtspPort E = some server) :
    httpAttempts (main E argv).trace =
      (if E.setUpTunnelingOverHTTP 80 then [80]
        else if E.setUpTunnelingOverHTTP 8000 then [80, 8000] else [80, 8000, 8080]) ∧
    tunnelReports (main E argv).trace =
      [if E.setUpTunnelingOverHTTP 80 then some 80
        else if E.setUpTunnelingOverHTTP 8000 then some 8000
        else if E.setUpTunnelingOverHTTP 8080 then some 8080 else none] ∧
    (tunnelReports (main E argv).trace = [none] ↔
      E.setUpTunnelingOverHTTP 80 = false ∧ E.setUpTunnelingOverHTTP 8000 = false ∧
        E.setUpTunnelingOverHTTP 8080 = false) := by
  obtain ⟨ms, hms⟩ := parseArguments_trace hacc
  have hrep := parseArguments_reports hacc
  have htr := main_bound_trace hacc hbind
  have h1 : httpAttempts (main E argv).trace = httpAttempts (tunnelEvents E server) := by
    rw [htr, hms]
    simp only [httpAttempts_append, httpAttempts_prints, serveEvents, httpAttempts_proxyEvents]
    split_ifs <;> simp [httpAttempts]
  have h2 : tunnelReports (main E argv).trace = tunnelReports (tunnelEvents E server) := by
    rw [htr]
    simp only [tunnelReports_append, hrep, serveEvents, tunnelReports_proxyEvents]
    split_ifs <;> simp [tunnelReports]
  rw [h1, h2]
  unfold tunnelEvents
  cases E.setUpTunnelingOverHTTP 80 <;> cases E.setUpTunnelingOverHTTP 8000 <;>
    cases E.setUpTunnelingOverHTTP 8080 <;> simp [httpAttempts, tunnelReports]

/-- C16, at one URL with ports 80 and 8000 taken and port 8080 free. -/
theorem tunnel_bootstrap_order_witness :
    httpAttempts (main (engineWith [554] [8080]) ["ownprox", "rtsp://host/stream"]).trace =
      [80, 8000, 8080] :=
  (tunnel_bootstrap_order (engineWith [554] [8080]) ["ownprox", "rtsp://host/stream"]
    { progName := some "ownprox", argv := ["ownprox", "rtsp://host/stream"],
      trace := [.print .banner] } 554 rfl rfl).1

theorem doEventLoop_not_mem_prints (ms : List Message) :
    Event.doEventLoop ∉ ms.map Event.print := by
  simp

theorem doEventLoop_not_mem_proxyEvents (server argc : Nat) (u p : Option String) (t v : Nat) :
    ∀ (urls : List String) (i : Nat),
      Event.doEventLoop ∉ proxyEvents server argc u p t v i urls := by
  intro urls
  induction urls with
  | nil => intro i; simp [proxyEvents]
  | cons url urls ih =>
    intro i
    simp only [proxyEvents, List.mem_append, not_or]
    exact ⟨by simp, ih _⟩

theorem tunnelEvents_http_ne_nil (E : Engine) (server : Nat) :
    httpAttempts (tunnelEvents E server) ≠ [] := by
  unfold tunnelEvents
  split_ifs <;> simp [httpAttempts]

/-- C14: for every accepted argument vector with URL list `urls` and every bind oracle under
which an RTSP port binds, the session calls of the run are, for each URL in the order of the
list, one creation (with the URL, its name, the resolved credentials, transport value and
verbosity) followed by its registration; the created sessions are for exactly the URLs of the
list in order; and the trace splits into a first part that holds all of these calls, no
tunnelling attempt and no entry into the event loop, and a second part that holds no session
call, starts the tunnelling attempts and ends by entering the event loop. -/
theorem sessions_in_configuration_order (E : Engine) (argv : List String) (s : State)
    (urls : List String) (server : Nat) (hacc : parseArguments E argv = .ok s)
    (hurls : s.argv.tail = urls) (hbind : rtspPort E = some server) :
    sessionCalls (main E argv).trace =
      sessionCallsFor server s.argc s.username s.password s.tunnelOverHTTPPortNum
        s.verbosityLevel 1 urls ∧
    (sessionPairs (main E argv).trace).map Prod.fst = urls ∧
    ∃ before after, (main E argv).trace = before ++ after ∧
      sessionCalls before = sessionCalls (main E argv).trace ∧
      httpAttempts before = [] ∧ Event.doEventLoop ∉ before ∧
      sessionCalls after = [] ∧ httpAttempts after ≠ [] ∧
      after.getLast? = some .doEventLoop := by
  obtain ⟨ms, hms⟩ := parseArguments_trace hacc
  have htr := main_bound_trace hacc hbind
  obtain ⟨hcalls, hpairs, _, _, _⟩ := serveEvents_obs E server s
  have hc : sessionCalls (main E argv).trace =
      sessionCallsFor server s.argc s.username s.password s.tunnelOverHTTPPortNum
        s.verbosityLevel 1 urls := by
    rw [htr, hms]
    simp only [sessionCalls_append, sessionCalls_prints, hcalls, hurls]
    split_ifs <;> simp [sessionCalls]
  refine ⟨hc, ?_, ?_⟩
  · rw [htr, hms]
    simp only [sessionPairs_append, sessionPairs_prints, hpairs, hurls]
    have : sessionPairs (if server = 554 then [Event.createRTSPServer 554 s.proxyREGISTERRequests]
        else [Event.createRTSPServer 554 s.proxyREGISTERRequests,
          Event.createRTSPServer 8554 s.proxyREGISTERRequests]) = [] := by
      split_ifs <;> simp [sessionPairs]
    rw [this]
    simp only [List.nil_append, List.append_nil]
    exact List.map_fst_zip _ _ (by simp)
  · refine ⟨s.trace ++
        (if server = 554 then [Event.createRTSPServer 554 s.proxyREGISTERRequests]
          else [Event.createRTSPServer 554 s.proxyREGISTERRequests,
            Event.createRTSPServer 8554 s.proxyREGISTERRequests]) ++
        proxyEvents server s.argc s.username s.password s.tunnelOverHTTPPortNum
          s.verbosityLevel 1 s.argv.tail,
      (if s.proxyREGISTERRequests then [Event.print (.registerPort server)] else []) ++
        tunnelEvents E server ++ [Event.doEventLoop], ?_, ?_, ?_, ?_, ?_, ?_, ?_⟩
    · rw [htr]; simp [serveEvents]
    · rw [hc, hms]
      simp only [sessionCalls_append, sessionCalls_prints, sessionCalls_proxyEvents, hurls]
      split_ifs <;> simp [sessionCalls]
    · rw [hms]
      simp only [httpAttempts_append, httpAttempts_prints, httpAttempts_proxyEvents]
      split_ifs <;> simp [httpAttempts]
    · rw [hms]
      simp only [List.mem_append, not_or]
      refine ⟨⟨doEventLoop_not_mem_prints ms, ?_⟩, doEventLoop_not_mem_proxyEvents _ _ _ _ _ _ _ _⟩
      split_ifs <;> simp
    · simp only [sessionCalls_append, (tunnelEvents_obs E server).1]
      split_ifs <;> simp [sessionCalls]
    · simp only [httpAttempts_append]
      intro h
      simp only [List.append_eq_nil] at h
      exact tunnelEvents_http_ne_nil E server h.1.2
    · simp

/-- C14, at two URLs with credentials and port 554 free. -/
theorem sessions_in_configuration_order_witness :
    sessionCalls (main (engineWith [554] [])
        ["ownprox", "-u", "me", "pw", "rtsp://a/1", "rtsp://b/2"]).trace =
      [.createNewSession 554 "rtsp://a/1" "proxyStream-1" (some "me") (some "pw") 0 0,
        .addServerMediaSession 554 "proxyStream-1",
        .createNewSession 554 "rtsp://b/2" "proxyStream-2" (some "me") (some "pw") 0 0,
        .addServerMediaSession 554 "proxyStream-2"] :=
  (sessions_in_configuration_order (engineWith [554] [])
    ["ownprox", "-u", "me", "pw", "rtsp://a/1", "rtsp://b/2"]
    { progName := some "ownprox", username := some "me", password := some "pw",
      argv := ["pw", "rtsp://a/1", "rtsp://b/2"], trace := [.print .banner] }
    ["rtsp://a/1", "rtsp://b/2"] 554 rfl rfl rfl).1

/-! ## Lemmas: the resolver as a function of the state after the loop -/

/-- The loop stops at once in front of a token that does not start with `-`. -/
theorem parseOptions_positional (E : Engine) (s : State) (a0 : String) (rest : List String)
    (h : s.argv = a0 :: rest) (hhead : ∀ t, rest.head? = some t → charAt t 0 ≠ '-') :
    parseOptions E s = .ok s := by
  cases rest with
  | nil => exact parseOptions_done E s (by simp [State.argc, h])
  | cons t tl =>
    rw [parseOptions_step E s (by simp [State.argc, h])]
    have hc := hhead t rfl
    simp [optionStep, h, hc]

/-- The state the loop is left in after accepted option groups followed by positional
tokens. -/
theorem parseOptions_groups_ok (E : Engine) (prog : String) (opts : List Opt)
    (rest : List String) (hhead : ∀ t, rest.head? = some t → charAt t 0 ≠ '-')
    (hacc : optsAccepted opts rest = true) :
    parseOptions E (initState (prog :: (optTokens opts ++ rest))) =
      .ok { applyOpts E opts (initState (prog :: (optTokens opts ++ rest))) with
            argv := (optTokens opts).getLastD prog :: rest } := by
  have hP := parseOptions_groups E opts (initState (prog :: (optTokens opts ++ rest))) prog
    rest rfl
  rw [if_pos hacc] at hP
  exact hP.trans (parseOptions_positional E _ _ rest rfl hhead)

/-- When the checks of lines 175-189 pass, the resolver accepts, and `-t` alone sets the
transport value to the marker. -/
theorem parseArguments_accept {E : Engine} {argv : List String} {s1 : State}
    (hlen : 2 ≤ argv.length) (hs1 : parseOptions E (initState argv) = .ok s1)
    (h1 : 2 ≤ s1.argc ∨ s1.proxyREGISTERRequests = true)
    (h2 : ∀ t ∈ s1.argv.tail, strncmpEq t "rtsp://" 7 = true)
    (h3 : ¬ (s1.streamRTPOverTCP = true ∧ 0 < s1.tunnelOverHTTPPortNum)) :
    parseArguments E argv = .ok { s1 with tunnelOverHTTPPortNum :=
      if s1.streamRTPOverTCP then 65535 else s1.tunnelOverHTTPPortNum } := by
  rw [parseArguments_of_options hlen hs1]
  have hn : ¬ (s1.argc < 2 ∧ s1.proxyREGISTERRequests = false) := by
    rintro ⟨a, b⟩
    rcases h1 with h | h
    · omega
    · rw [h] at b; cases b
  rw [if_neg hn]
  have hc : checkURLs (s1.argc - 1) 1 s1 = .ok s1 := by
    rcases Nat.eq_zero_or_pos s1.argc with hz | hpos
    · rw [hz]; rfl
    · exact checkURLs_of_all _ _ _ (by omega) (by rw [List.drop_one]; exact h2)
  rw [hc]
  simp only [checkTransport]
  by_cases ht : s1.streamRTPOverTCP = true
  · have : ¬ 0 < s1.tunnelOverHTTPPortNum := fun h => h3 ⟨ht, h⟩
    simp [ht, this]
  · simp only [ht, Bool.false_eq_true, if_false]
    cases s1
    simp_all

/-- When one of the checks of lines 175-189 fails, the resolver does not accept. -/
theorem parseArguments_reject {E : Engine} {argv : List String} {s1 : State}
    (hs1 : parseOptions E (initState argv) = .ok s1)
    (h : ¬ ((2 ≤ s1.argc ∨ s1.proxyREGISTERRequests = true) ∧
      (∀ t ∈ s1.argv.tail, strncmpEq t "rtsp://" 7 = true) ∧
      ¬ (s1.streamRTPOverTCP = true ∧ 0 < s1.tunnelOverHTTPPortNum))) :
    ∀ s, parseArguments E argv ≠ .ok s := by
  intro s hs
  obtain ⟨s1', hs1', _, a, b, c, _⟩ := parseArguments_ok hs
  rw [hs1] at hs1'
  injection hs1' with e
  subst e
  exact h ⟨a, b, c⟩

theorem resolve_of_ok {E : Engine} {argv : List String} {s : State}
    (h : parseArguments E argv = .ok s) : resolve E argv = some s.config := by
  unfold resolve; rw [h]

theorem resolve_of_not_ok {E : Engine} {argv : List String}
    (h : ∀ s, parseArguments E argv ≠ .ok s) : resolve E argv = none := by
  unfold resolve
  cases hp : parseArguments E argv with
  | ok s => exact absurd hp (h s)
  | error r => rfl

/-- From the static initial values of the globals the outcome of the resolver is a function
of the argument vector alone: two runs on the same vector, whatever the ports that bind in
each, give the same configuration or both the usage error, and the same resolver result down
to the output lines. -/
theorem resolver_deterministic (E E' : Engine) (argv : List String)
    (hinet : E'.our_inet_addr = E.our_inet_addr) :
    resolve E' argv = resolve E argv ∧ parseArguments E' argv = parseArguments E argv := by
  have h := parseArguments_engine hinet argv
  exact ⟨by unfold resolve; rw [h], h⟩

/-- Two runs from the initial globals at `-V -b 10.0.0.1` followed by a URL, with different
ports free in each. -/
theorem resolver_deterministic_witness :
    resolve (engineWith [8554] [80]) ["ownprox", "-V", "-b", "10.0.0.1", "rtsp://host/stream"] =
      resolve (engineWith [554] []) ["ownprox", "-V", "-b", "10.0.0.1", "rtsp://host/stream"] :=
  (resolver_deterministic (engineWith [554] []) (engineWith [8554] [80])
    ["ownprox", "-V", "-b", "10.0.0.1", "rtsp://host/stream"] rfl).1

theorem parseOptions_b_last (E : Engine) (s : State) (a0 : String) (h : s.argv = [a0, "-b"]) :
    parseOptions E s = .error (usage s) := by
  rw [parseOptions_step E s (by simp [State.argc, h])]
  simp [optionStep, caseB, h, charAt, State.argc]

/-- C17, where the code departs from it: `-b 10.0.0.1` as the last two tokens in REGISTER
mode is refused with the usage text, under every engine. -/
theorem bind_option_last_rejected (E : Engine) :
    main E ["ownprox", "-R", "-b", "10.0.0.1"] =
      ⟨[.print .banner, .print (.usage (some "ownprox"))], .exited 1⟩ := by
  rfl

/-- Where the bind option is refused: `-b` as the last token, or followed by a token that
starts with `-`, leads to the usage path. -/
theorem bind_option_refused (E : Engine) (prog : String) (opts : List Opt)
    (rest : List String)
    (hbad : rest = [] ∨ ∃ a tl, rest = a :: tl ∧ charAt a 0 = '-') :
    UsagePath (main E (prog :: (optTokens opts ++ "-b" :: rest))) ∧
    rtspAttempts (main E (prog :: (optTokens opts ++ "-b" :: rest))).trace = [] ∧
    httpAttempts (main E (prog :: (optTokens opts ++ "-b" :: rest))).trace = [] ∧
    sessionCalls (main E (prog :: (optTokens opts ++ "-b" :: rest))).trace = [] := by
  apply main_rejected
  apply not_accepted_of_loop_error
  rcases hbad with rfl | ⟨a, tl, rfl, ha⟩
  · have hP := parseOptions_groups E opts (initState (prog :: (optTokens opts ++ ["-b"]))) prog
      ["-b"] rfl
    split_ifs at hP with hacc
    · rw [hP]
      exact ⟨_, parseOptions_b_last E _ _ rfl⟩
    · exact hP
  · have hP := parseOptions_groups E (opts ++ [Opt.b a])
      (initState (prog :: (optTokens opts ++ "-b" :: a :: tl))) prog tl
      (by simp [initState, optTokens_append, optTokens, Opt.tokens])
    have hna : optsAccepted (opts ++ [Opt.b a]) tl = false := by
      rw [optsAccepted_append]
      have : (Opt.b a).accepted tl = false := by simp [Opt.accepted, ha]
      simp [optsAccepted, optTokens, this]
    rw [hna] at hP
    simpa using hP

theorem applyOpts_bind_keep (E : Engine) : ∀ (opts : List Opt) (s : State),
    (∀ q, Opt.b q ∉ opts) →
    (applyOpts E opts s).ReceivingInterfaceAddr = s.ReceivingInterfaceAddr := by
  intro opts
  induction opts with
  | nil => intro s _; rfl
  | cons o opts ih =>
    intro s h
    rw [applyOpts_cons, ih (o.apply E s) (fun q hm => h q (List.mem_cons_of_mem _ hm))]
    cases o with
    | b q => exact absurd (List.mem_cons_self _ _) (h q)
    | _ => rfl

/-- Where the bind option is accepted: `-b ip` with `ip` not starting with `-` is accepted
among accepted option groups, of which `-t` and `-T` are not both present, and the bind
address is the address of `ip`, provided at least one token follows `ip`. -/
theorem bind_option_accepted_when_followed (E : Engine) (prog : String)
    (pre post : List Opt) (urls : List String) (ip : String) (hip : charAt ip 0 ≠ '-')
    (hfollow : optTokens post ++ urls ≠ [])
    (hpre : optsAccepted pre (optTokens (Opt.b ip :: post) ++ urls) = true)
    (hpost : optsAccepted post urls = true)
    (hconf : ¬ (Opt.t ∈ pre ++ Opt.b ip :: post ∧ ∃ q, Opt.T q ∈ pre ++ Opt.b ip :: post))
    (hnob : ∀ q, Opt.b q ∉ post)
    (hurls : ∀ t ∈ urls, strncmpEq t "rtsp://" 7 = true)
    (hsome : urls ≠ [] ∨ Opt.R ∈ pre ∨ Opt.R ∈ post) :
    ∃ s, parseArguments E
        (prog :: (optTokens pre ++ "-b" :: ip :: (optTokens post ++ urls))) = .ok s ∧
      s.ReceivingInterfaceAddr = some (E.our_inet_addr ip) := by
  have hargv : prog :: (optTokens pre ++ "-b" :: ip :: (optTokens post ++ urls)) =
      prog :: (optTokens (pre ++ Opt.b ip :: post) ++ urls) := by
    simp [optTokens_append, optTokens_cons, Opt.tokens]
  rw [hargv]
  have hb : (Opt.b ip).accepted (optTokens post ++ urls) = true := by
    cases hl : optTokens post ++ urls with
    | nil => exact absurd hl hfollow
    | cons a l => simp [Opt.accepted, hip]
  have hacc : optsAccepted (pre ++ Opt.b ip :: post) urls = true := by
    rw [optsAccepted_append]
    simp only [optsAccepted, hpre, hb, hpost, Bool.and_self]
  have hhead : ∀ t, urls.head? = some t → charAt t 0 ≠ '-' := by
    intro t ht
    have hm : t ∈ urls := List.mem_of_mem_head? ht
    rw [rtsp_first_char (hurls t hm)]
    decide
  have hs1 := parseOptions_groups_ok E prog (pre ++ Opt.b ip :: post) urls hhead hacc
  have hlen : 2 ≤ (prog :: (optTokens (pre ++ Opt.b ip :: post) ++ urls)).length := by
    simp only [optTokens_append, optTokens_cons, Opt.tokens, List.length_cons, List.length_append]
    omega
  refine ⟨_, parseArguments_accept hlen hs1 ?_ ?_ ?_, ?_⟩
  · cases urls with
    | cons a l => left; simp [State.argc]
    | nil =>
      right
      have : Opt.R ∈ pre ++ Opt.b ip :: post := by
        rcases hsome with h | h | h
        · exact absurd rfl h
        · simp [h]
        · simp [h]
      exact (applyOpts_register E _ _).2 (Or.inr this)
  · simpa using hurls
  · rintro ⟨h1, h2⟩
    apply hconf
    have h1' := (applyOpts_tcp E (pre ++ Opt.b ip :: post) _).1 h1
    have h2' := (applyOpts_tunnel E (pre ++ Opt.b ip :: post) urls _ hacc).1 h2
    simp only [initState_fields, Bool.false_eq_true, false_or, lt_self_iff_false] at h1' h2'
    exact ⟨h1', h2'⟩
  · show (applyOpts E (pre ++ Opt.b ip :: post) _).ReceivingInterfaceAddr = _
    have e : pre ++ Opt.b ip :: post = pre ++ [Opt.b ip] ++ post := by simp
    rw [e, applyOpts_append, applyOpts_bind_keep E post _ hnob, applyOpts_append]
    rfl

/-- The bind option at `-b 10.0.0.1 -R`, with the `-R` after it. -/
theorem bind_option_accepted_when_followed_witness :
    ∃ s, parseArguments (engineWith [554] []) ["ownprox", "-b", "10.0.0.1", "-R"] = .ok s ∧
      s.ReceivingInterfaceAddr = some ((engineWith [554] []).our_inet_addr "10.0.0.1") :=
  bind_option_accepted_when_followed (engineWith [554] []) "ownprox" [] [.R] [] "10.0.0.1"
    (by decide) (by decide) (by decide) (by decide) (fun h => absurd h.1 (by decide))
    (by simp) (by simp) (by decide)

@[simp] theorem sessionTransports_append (a b : List Event) :
    sessionTransports (a ++ b) = sessionTransports a ++ sessionTransports b := by
  simp [sessionTransports]

@[simp] theorem sessionTransports_prints (ms : List Message) :
    sessionTransports (ms.map Event.print) = [] := by
  induction ms with
  | nil => rfl
  | cons m ms ih => simp [sessionTransports]

theorem sessionTransports_proxyEvents (server argc : Nat) (u p : Option String) (t v : Nat) :
    ∀ (urls : List String) (i : Nat),
      ∀ x ∈ sessionTransports (proxyEvents server argc u p t v i urls), x = t := by
  intro urls
  induction urls with
  | nil => intro i x hx; simp [proxyEvents, sessionTransports] at hx
  | cons url urls ih =>
    intro i x hx
    simp only [proxyEvents, sessionTransports_append, List.mem_append] at hx
    rcases hx with hx | hx
    · simp [sessionTransports] at hx; exact hx
    · exact ih _ x hx

theorem sessionTransports_tunnelEvents (E : Engine) (server : Nat) :
    sessionTransports (tunnelEvents E server) = [] := by
  unfold tunnelEvents
  split_ifs <;> simp [sessionTransports]

/-- Every session of a run carries the transport value of the accepted configuration. -/
theorem main_transports {E : Engine} {argv : List String} {s : State}
    (hacc : parseArguments E argv = .ok s) :
    ∀ x ∈ sessionTransports (main E argv).trace, x = s.tunnelOverHTTPPortNum := by
  intro x hx
  rcases h : rtspPort E with _ | server
  · obtain ⟨_, ms, b, htr⟩ := main_unbound hacc h
    rw [htr] at hx
    simp [sessionTransports] at hx
  · obtain ⟨_, ms, b, htr⟩ := main_bound hacc h
    rw [htr] at hx
    simp only [sessionTransports_append, sessionTransports_prints, serveEvents,
      sessionTransports_tunnelEvents, List.nil_append, List.append_nil, List.mem_append] at hx
    rcases hx with hx | (hx | hx) | hx
    · split_ifs at hx <;> simp [sessionTransports] at hx
    · exact sessionTransports_proxyEvents _ _ _ _ _ _ _ _ x hx
    · split_ifs at hx <;> simp [sessionTransports] at hx
    · simp [sessionTransports] at hx

/-- The accepted state after option groups followed by positional tokens. -/
theorem parseArguments_groups_state {E : Engine} {prog : String} {opts : List Opt}
    {rest : List String} {s : State}
    (hhead : ∀ t, rest.head? = some t → charAt t 0 ≠ '-')
    (hs : parseArguments E (prog :: (optTokens opts ++ rest)) = .ok s) :
    optsAccepted opts rest = true ∧
    ¬ ((applyOpts E opts (initState (prog :: (optTokens opts ++ rest)))).streamRTPOverTCP = true ∧
      0 < (applyOpts E opts (initState (prog :: (optTokens opts ++ rest)))
        ).tunnelOverHTTPPortNum) ∧
    s = { applyOpts E opts (initState (prog :: (optTokens opts ++ rest))) with
          argv := (optTokens opts).getLastD prog :: rest,
          tunnelOverHTTPPortNum :=
            if (applyOpts E opts (initState (prog :: (optTokens opts ++ rest)))
                ).streamRTPOverTCP then 65535
            else (applyOpts E opts (initState (prog :: (optTokens opts ++ rest)))
                ).tunnelOverHTTPPortNum } := by
  obtain ⟨s1, hs1, _, _, _, hboth, hs⟩ := parseArguments_ok hs
  by_cases hacc : optsAccepted opts rest = true
  · have h := parseOptions_groups_ok E prog opts rest hhead hacc
    rw [hs1] at h
    injection h with h
    subst h
    exact ⟨hacc, hboth, hs⟩
  · have hP := parseOptions_groups E opts (initState (prog :: (optTokens opts ++ rest))) prog
      rest rfl
    rw [if_neg hacc] at hP
    obtain ⟨r, hr⟩ := hP
    rw [hr] at hs1
    cases hs1

theorem head_rtsp_not_dash {urls : List String}
    (hurls : ∀ t ∈ urls, strncmpEq t "rtsp://" 7 = true) :
    ∀ t, urls.head? = some t → charAt t 0 ≠ '-' := by
  intro t ht
  rw [rtsp_first_char (hurls t (List.mem_of_mem_head? ht))]
  decide

/-- C12 fails as stated: `-T 65535` without `-t` hands the force-TCP marker 65535 to session
creation. -/
theorem tunnel_port_equals_tcp_marker :
    (main (engineWith [554] []) ["ownprox", "-T", "65535", "rtsp://host/stream"]).outcome =
        .eventLoop ∧
    sessionTransports
        (main (engineWith [554] []) ["ownprox", "-T", "65535", "rtsp://host/stream"]).trace =
      [65535] ∧
    sessionTransports
        (main (engineWith [554] []) ["ownprox", "-t", "rtsp://host/stream"]).trace =
      [65535] := by
  decide

/-- C12, amended: for every accepted argument vector made of option groups followed by
`rtsp://` URLs, `-t` and `-T` are not both among the groups; every session is handed the
resolved transport value; that value is 0 exactly when neither `-t` nor `-T` was given, is
65535 when `-t` was given, and is `p` when the last `-T` group is `-T p` with `p` a decimal
numeral in 1..65535. -/
theorem transport_value_resolved (E : Engine) (prog : String) (opts : List Opt)
    (urls : List String) (s : State)
    (hurls : ∀ t ∈ urls, strncmpEq t "rtsp://" 7 = true)
    (hacc : parseArguments E (prog :: (optTokens opts ++ urls)) = .ok s) :
    ¬ (Opt.t ∈ opts ∧ ∃ q, Opt.T q ∈ opts) ∧
    (∀ x ∈ sessionTransports (main E (prog :: (optTokens opts ++ urls))).trace,
      x = s.tunnelOverHTTPPortNum) ∧
    (s.tunnelOverHTTPPortNum = 0 ↔ Opt.t ∉ opts ∧ ∀ q, Opt.T q ∉ opts) ∧
    (Opt.t ∈ opts → s.tunnelOverHTTPPortNum = 65535) ∧
    (∀ (pre post : List Opt) (p : Nat), opts = pre ++ Opt.T (toString p) :: post →
      (∀ q, Opt.T q ∉ post) → 1 ≤ p → p ≤ 65535 → s.tunnelOverHTTPPortNum = p) := by
  obtain ⟨hok, hboth, hs⟩ := parseArguments_groups_state (head_rtsp_not_dash hurls) hacc
  have htcp := applyOpts_tcp E opts (initState (prog :: (optTokens opts ++ urls)))
  have htun := applyOpts_tunnel E opts urls (initState (prog :: (optTokens opts ++ urls))) hok
  simp only [initState_fields, Bool.false_eq_true, false_or, lt_self_iff_false] at htcp htun
  have hnot : ¬ (Opt.t ∈ opts ∧ ∃ q, Opt.T q ∈ opts) :=
    fun h => hboth ⟨htcp.2 h.1, htun.2 h.2⟩
  have hval : s.tunnelOverHTTPPortNum =
      if (applyOpts E opts (initState (prog :: (optTokens opts ++ urls)))).streamRTPOverTCP
      then 65535
      else (applyOpts E opts (initState (prog :: (optTokens opts ++ urls)))
        ).tunnelOverHTTPPortNum := by
    rw [hs]
  refine ⟨hnot, main_transports hacc, ?_, ?_, ?_⟩
  · rw [hval]
    by_cases ht : Opt.t ∈ opts
    · rw [if_pos (htcp.2 ht)]
      simp [ht]
    · have hf : ¬ (applyOpts E opts (initState (prog :: (optTokens opts ++ urls)))
          ).streamRTPOverTCP = true := fun h => ht (htcp.1 h)
      rw [if_neg hf]
      constructor
      · intro h0
        refine ⟨ht, fun q hq => ?_⟩
        have := htun.2 ⟨q, hq⟩
        omega
      · rintro ⟨_, hq⟩
        by_contra hne
        obtain ⟨q, hq'⟩ := htun.1 (Nat.pos_of_ne_zero hne)
        exact hq q hq'
  · intro ht
    rw [hval, if_pos (htcp.2 ht)]
  · intro pre post p hopts hpost hp1 hp2
    have ht : Opt.t ∉ opts := fun h => hnot ⟨h, toString p, by rw [hopts]; simp⟩
    have hf : ¬ (applyOpts E opts (initState (prog :: (optTokens opts ++ urls)))
        ).streamRTPOverTCP = true := fun h => ht (htcp.1 h)
    rw [hval, if_neg hf]
    have e : opts = pre ++ [Opt.T (toString p)] ++ post := by rw [hopts]; simp
    rw [e, applyOpts_append, applyOpts_tunnel_keep E post _ hpost, applyOpts_append]
    simp [applyOpts, Opt.apply, sscanf_hu_toString p (by omega)]

/-- C12 amended, at `-v -T 8080` followed by a URL. -/
theorem transport_value_resolved_witness :
    sessionTransports
        (main (engineWith [554] []) ["ownprox", "-v", "-T", "8080", "rtsp://host/stream"]).trace =
      List.replicate 1 8080 :=
  List.eq_replicate_iff.2 ⟨by decide,
    (transport_value_resolved (engineWith [554] []) "ownprox" [.v, .T "8080"]
      ["rtsp://host/stream"]
      { progName := some "ownprox", verbosityLevel := 1, tunnelOverHTTPPortNum := 8080,
        argv := ["8080", "rtsp://host/stream"], trace := [.print .banner] }
      (by decide) rfl).2.1⟩

/-! ## Lemmas: the order of option groups -/

/-- Two option groups that write different settings, or are the same group, commute. -/
theorem Opt.apply_comm (E : Engine) (o1 o2 : Opt) (s : State)
    (h : o1.setting = o2.setting → o1 = o2) :
    o2.apply E (o1.apply E s) = o1.apply E (o2.apply E s) := by
  cases o1 <;> cases o2 <;>
    first
      | rfl
      | (cases h rfl; rfl)
      | cases h rfl

theorem applyOpts_perm (E : Engine) {opts1 opts2 : List Opt} (hperm : opts1.Perm opts2)
    (hone : ∀ o1 ∈ opts1, ∀ o2 ∈ opts1, o1.setting = o2.setting → o1 = o2) (s : State) :
    applyOpts E opts1 s = applyOpts E opts2 s := by
  unfold applyOpts
  exact hperm.foldl_eq' (fun x hx y hy z => Opt.apply_comm E x y z (hone x hx y hy)) s

theorem Opt.accepted_eq_valueOk (o : Opt) (rest : List String)
    (h : rest ≠ [] ∨ o.needsFollower = false) : o.accepted rest = o.valueOk := by
  cases o with
  | T port =>
    rcases h with h | h
    · cases rest with
      | nil => exact absurd rfl h
      | cons a l => simp [Opt.accepted, Opt.valueOk]
    · simp [Opt.needsFollower] at h
  | b ip =>
    rcases h with h | h
    · cases rest with
      | nil => exact absurd rfl h
      | cons a l => simp [Opt.accepted, Opt.valueOk]
    · simp [Opt.needsFollower] at h
  | _ => rfl

theorem optTokens_ne_nil {opts : List Opt} (h : opts ≠ []) : optTokens opts ≠ [] :=
  fun e => h (optTokens_eq_nil.1 e)

/-- Apart from the `argc` test on the last group, acceptance is a test on each group. -/
theorem optsAccepted_eq_all : ∀ (opts : List Opt) (rest : List String),
    (rest ≠ [] ∨ ∀ o, opts.getLast? = some o → o.needsFollower = false) →
    optsAccepted opts rest = opts.all Opt.valueOk := by
  intro opts
  induction opts with
  | nil => intro rest _; rfl
  | cons o opts ih =>
    intro rest h
    simp only [optsAccepted, List.all_cons]
    cases opts with
    | nil =>
      have : o.accepted (optTokens [] ++ rest) = o.valueOk := by
        apply Opt.accepted_eq_valueOk
        rcases h with h | h
        · left; simpa [optTokens] using h
        · right; exact h o rfl
      rw [this]; rfl
    | cons o' os =>
      have h1 : o.accepted (optTokens (o' :: os) ++ rest) = o.valueOk := by
        apply Opt.accepted_eq_valueOk
        left
        intro e
        exact optTokens_ne_nil (List.cons_ne_nil o' os) (List.append_eq_nil.1 e).1
      rw [h1, ih rest (by
        rcases h with h | h
        · exact Or.inl h
        · right; intro x hx; exact h x (by simpa [List.getLast?_cons_cons] using hx))]

theorem all_valueOk_perm {opts1 opts2 : List Opt} (hperm : opts1.Perm opts2) :
    opts1.all Opt.valueOk = opts2.all Opt.valueOk := by
  rw [Bool.eq_iff_iff]
  simp only [List.all_eq_true]
  exact ⟨fun h x hx => h x (hperm.mem_iff.2 hx), fun h x hx => h x (hperm.mem_iff.1 hx)⟩

/-- The resolver's outcome from the state in which the option loop ended. -/
theorem resolve_after_loop {E : Engine} {argv : List String} {s1 : State}
    (hlen : 2 ≤ argv.length) (hs1 : parseOptions E (initState argv) = .ok s1) :
    resolve E argv = afterLoop s1 := by
  by_cases hc : (2 ≤ s1.argc ∨ s1.proxyREGISTERRequests = true) ∧
      (∀ t ∈ s1.argv.tail, strncmpEq t "rtsp://" 7 = true) ∧
      ¬ (s1.streamRTPOverTCP = true ∧ 0 < s1.tunnelOverHTTPPortNum)
  · rw [resolve_of_ok (parseArguments_accept hlen hs1 hc.1 hc.2.1 hc.2.2)]
    have : ((decide (2 ≤ s1.argc) || s1.proxyREGISTERRequests) &&
        s1.argv.tail.all (fun t => strncmpEq t "rtsp://" 7) &&
        !(s1.streamRTPOverTCP && decide (0 < s1.tunnelOverHTTPPortNum))) = true := by
      simp only [Bool.and_eq_true, Bool.or_eq_true, decide_eq_true_eq, List.all_eq_true,
        Bool.not_eq_true', Bool.and_eq_false_imp]
      refine ⟨⟨hc.1, hc.2.1⟩, fun h1 => ?_⟩
      simpa using fun h2 => hc.2.2 ⟨h1, h2⟩
    unfold afterLoop
    rw [if_pos this]
  · rw [resolve_of_not_ok (parseArguments_reject hs1 hc)]
    have : ¬ ((decide (2 ≤ s1.argc) || s1.proxyREGISTERRequests) &&
        s1.argv.tail.all (fun t => strncmpEq t "rtsp://" 7) &&
        !(s1.streamRTPOverTCP && decide (0 < s1.tunnelOverHTTPPortNum))) = true := by
      intro h
      apply hc
      simp only [Bool.and_eq_true, Bool.or_eq_true, decide_eq_true_eq, List.all_eq_true,
        Bool.not_eq_true', Bool.and_eq_false_imp] at h
      refine ⟨h.1.1, h.1.2, fun ⟨h1, h2⟩ => ?_⟩
      have := h.2 h1
      simp at this
      omega
    unfold afterLoop
    rw [if_neg this]

/-- The resolver's outcome on option groups followed by positional tokens. -/
theorem resolve_groups (E : Engine) (prog : String) (opts : List Opt) (rest : List String)
    (hhead : ∀ t, rest.head? = some t → charAt t 0 ≠ '-') (hne : opts ≠ [] ∨ rest ≠ []) :
    resolve E (prog :: (optTokens opts ++ rest)) =
      if optsAccepted opts rest then
        afterLoop { applyOpts E opts (initState [prog]) with argv := prog :: rest }
      else none := by
  split_ifs with hacc
  · have hlen : 2 ≤ (prog :: (optTokens opts ++ rest)).length := by
      have : optTokens opts ++ rest ≠ [] := by
        intro e
        rcases hne with h | h
        · exact optTokens_ne_nil h (List.append_eq_nil.1 e).1
        · exact h (List.append_eq_nil.1 e).2
      cases hl : optTokens opts ++ rest with
      | nil => exact absurd hl this
      | cons a l => simp
    rw [resolve_after_loop hlen (parseOptions_groups_ok E prog opts rest hhead hacc)]
    have e := applyOpts_argv E opts (initState [prog]) (prog :: (optTokens opts ++ rest))
    have e' : ({ initState [prog] with argv := prog :: (optTokens opts ++ rest) } : State) =
        initState (prog :: (optTokens opts ++ rest)) := by simp [initState]
    rw [e'] at e
    rw [e]
    rfl
  · apply resolve_of_not_ok
    apply not_accepted_of_loop_error
    have hP := parseOptions_groups E opts (initState (prog :: (optTokens opts ++ rest))) prog
      rest rfl
    rw [if_neg hacc] at hP
    exact hP

/-- C11 fails as stated: `-v -V` resolves to verbosity 2 and `-V -v` to verbosity 1, the later
group overwriting the earlier one. -/
theorem verbosity_order_matters :
    resolve (engineWith [554] []) ["ownprox", "-v", "-V", "rtsp://host/stream"] =
      some { verbosityLevel := 2, transport := 0, username := none, password := none,
             registerMode := false, bindAddress := none, urls := ["rtsp://host/stream"] } ∧
    resolve (engineWith [554] []) ["ownprox", "-V", "-v", "rtsp://host/stream"] =
      some { verbosityLevel := 1, transport := 0, username := none, password := none,
             registerMode := false, bindAddress := none, urls := ["rtsp://host/stream"] } := by
  decide

/-- C11, amended: for every two argument vectors that consist of the same option groups in a
different order, no two different groups among them writing the same setting, followed by the
same positional tokens, and with a non-empty positional list or no `-T` or `-b` group at the
end of either vector, the resolver gives the same outcome: the usage error in both or the same
configuration in both. -/
theorem option_order_independent (E : Engine) (prog : String) (opts1 opts2 : List Opt)
    (urls : List String) (hperm : opts1.Perm opts2)
    (hone : ∀ o1 ∈ opts1, ∀ o2 ∈ opts1, o1.setting = o2.setting → o1 = o2)
    (hhead : ∀ t, urls.head? = some t → charAt t 0 ≠ '-')
    (hlast : urls ≠ [] ∨
      ((∀ o, opts1.getLast? = some o → o.needsFollower = false) ∧
        (∀ o, opts2.getLast? = some o → o.needsFollower = false))) :
    resolve E (prog :: (optTokens opts1 ++ urls)) =
      resolve E (prog :: (optTokens opts2 ++ urls)) := by
  by_cases hnil : opts1 = [] ∧ urls = []
  · obtain ⟨h1, h2⟩ := hnil
    subst h1
    have : opts2 = [] := List.Perm.eq_nil hperm.symm
    rw [this]
  · have hne1 : opts1 ≠ [] ∨ urls ≠ [] := by
      by_contra h
      push_neg at h
      exact hnil h
    have hne2 : opts2 ≠ [] ∨ urls ≠ [] := by
      rcases hne1 with h | h
      · left
        intro e
        rw [e] at hperm
        exact h (List.Perm.eq_nil hperm)
      · exact Or.inr h
    rw [resolve_groups E prog opts1 urls hhead hne1, resolve_groups E prog opts2 urls hhead hne2]
    have ha1 : optsAccepted opts1 urls = opts1.all Opt.valueOk :=
      optsAccepted_eq_all opts1 urls (hlast.imp id (fun h => h.1))
    have ha2 : optsAccepted opts2 urls = opts2.all Opt.valueOk :=
      optsAccepted_eq_all opts2 urls (hlast.imp id (fun h => h.2))
    rw [ha1, ha2, all_valueOk_perm hperm, applyOpts_perm E hperm hone]

/-- C11 amended, at `-R -u me pw -V` against `-V -R -u me pw`, each followed by a URL. -/
theorem option_order_independent_witness :
    resolve (engineWith [554] []) ["ownprox", "-R", "-u", "me", "pw", "-V", "rtsp://host/stream"] =
      resolve (engineWith [554] [])
        ["ownprox", "-V", "-R", "-u", "me", "pw", "rtsp://host/stream"] :=
  option_order_independent (engineWith [554] []) "ownprox" [.R, .u "me" "pw", .V]
    [.V, .R, .u "me" "pw"] ["rtsp://host/stream"] (by decide) (by decide) (by decide)
    (Or.inl (by decide))

/-! ## Lemmas: two runs of the resolver on the same vector -/

/-- C10 fails as stated: at `-u a b -u c d` the tokens after the first `-u` are not the
credentials handed to the session; the later group has overwritten them. -/
theorem earlier_credentials_overwritten :
    sessionCredentials (main (engineWith [554] [])
        ["ownprox", "-u", "a", "b", "-u", "c", "d", "rtsp://host/stream"]).trace =
      [(some "c", some "d")] := by
  decide

end Ownprox
